import Mathlib

/-!
Shallow embedding of `eth/stagedsync/exec3.go` (staged blockchain execution,
ExecV3 / processResultQueue / reconstitution transpose) and proofs about it.

Conventions of the embedding:
* Machine integers (`uint64`) are modelled as `Nat`; byte strings as `List Nat`.
* External collaborators that are only invoked by this file (the VM worker
  `applyWorker.RunTxTask`, the trigger count of `rs.CommitTxNum`, the
  aggregator commitment) are oracles passed as function parameters.
* Calls into the state layer (`rs.ApplyState4`, `rs.ApplyLogsAndTraces`,
  `rs.CommitTxNum`, durable commits, unwinder calls, ...) are recorded as
  events in a trace; store-level failures of these calls are not modelled
  (they are external `store-error`s, fatal in every path).
-/

namespace Exec3

/-- The unit of work of the execution pipeline, `exec22.TxTask`
(fields restricted to those read by `exec3.go`).  `error` is the task's
error output, `readsValid` is the oracle result of
`rs.ReadsValid(txTask.ReadLists)` at the moment the task is popped
(the read-set itself is opaque here), `usedGas` the gas output. -/
structure TxTask where
  blockNum : Nat
  txIndex : Int
  txNum : Nat
  final : Bool
  error : Option String
  usedGas : Nat
  readsValid : Bool
  headerGasUsed : Nat
  deriving Repr, DecidableEq

/-- `applyWorker.RunTxTask(txTask)`: the VM worker is an external
collaborator; it writes only the task's outputs (`Error`, `UsedGas`,
read/write sets), never its identity fields (`TxNum`, `TxIndex`,
`BlockNum`, `Final`).  The oracle `run` yields the outputs. -/
def runApply (run : TxTask → Option String × Nat) (t : TxTask) : TxTask :=
  { t with error := (run t).1, usedGas := (run t).2 }

/-- Events emitted by `processResultQueue` towards the shared state
(`rs = StateV3`) and the apply worker. -/
inductive Ev where
  /-- `rs.ApplyState4(txTask, agg)` (invoked only for `Final` tasks). -/
  | applyState4 (txNum : Nat)
  /-- `rs.CommitTxNum(txTask.Sender, txTask.TxNum, in)`. -/
  | commitTxNum (txNum : Nat)
  /-- `rs.ApplyLogsAndTraces(txTask, agg)`. -/
  | applyLogsAndTraces (txNum : Nat)
  /-- in-place re-execution `applyWorker.RunTxTask(txTask)` after a conflict. -/
  | reExec (txNum : Nat)
  deriving Repr, DecidableEq

/-- Accumulator of one `processResultQueue` call: the named return values of
the Go function plus ghost instrumentation (`events`, `retried`, `popped`,
`lastApplied`) recording what was sent where. -/
structure PRQAcc where
  outputTxNum : Nat
  conflicts : Nat
  triggers : Nat
  processedBlockNum : Nat
  stoppedAtBlockEnd : Bool
  i : Nat
  events : List Ev
  retried : List TxTask
  popped : List TxTask
  lastApplied : Option TxTask
  deriving Repr, DecidableEq

/-- The apply block of `processResultQueue` for one (conflict-free or
re-executed) task: `if txTask.Final { rs.ApplyState4 }`,
`rs.CommitTxNum`, `outputTxNum++`, `rs.ApplyLogsAndTraces`,
`processedBlockNum = txTask.BlockNum`, `stopedAtBlockEnd = txTask.Final`. -/
def applyTask (trig : TxTask → Nat) (t : TxTask) (a : PRQAcc) : PRQAcc :=
  { a with
    events := a.events ++ (if t.final then [Ev.applyState4 t.txNum] else []) ++
      [Ev.commitTxNum t.txNum, Ev.applyLogsAndTraces t.txNum],
    triggers := a.triggers + trig t,
    outputTxNum := a.outputTxNum + 1,
    processedBlockNum := t.blockNum,
    stoppedAtBlockEnd := t.final,
    lastApplied := some t }

/-- `txTask.Error != nil || !rs.ReadsValid(txTask.ReadLists)`:
the conflict test of `processResultQueue`. -/
def isConflict (t : TxTask) : Bool :=
  t.error.isSome || !t.readsValid

/-- The loop of `processResultQueue`.  The results queue `rws` is modelled
from the spec: "Min-heap over result TxTasks keyed by transaction number ...
a peek-and-pop interface that only yields the task whose number equals the
expected next output number" (`rwsIt.HasNext(outputTxNum)` / `PopNext`), so
the heap is a list and the loop guard compares the head's `txNum` with
`outputTxNum`.  Returns the final accumulator, the returned error, and the
part of the heap that was not consumed. -/
def prqGo (run : TxTask → Option String × Nat) (trig : TxTask → Nat)
    (canRetry forceStop : Bool) :
    List TxTask → PRQAcc → PRQAcc × Option String × List TxTask
  | [], a => (a, none, [])
  | t :: rest, a =>
    if t.txNum = a.outputTxNum then
      let a0 := { a with popped := a.popped ++ [t] }
      if isConflict t then
        let a1 := { a0 with conflicts := a0.conflicts + 1 }
        if 0 < a1.i ∧ canRetry then
          -- send to re-exec: rs.ReTry(txTask, in); continue
          prqGo run trig canRetry forceStop rest
            { a1 with retried := a1.retried ++ [t] }
        else
          -- resolve first conflict right here: applyWorker.RunTxTask(txTask)
          let t' := runApply run t
          let a2 := { a1 with events := a1.events ++ [Ev.reExec t.txNum] }
          if t'.error = none then
            let a3 := applyTask trig t' { a2 with i := a2.i + 1 }
            if forceStop ∧ t'.final then (a3, none, rest)
            else prqGo run trig canRetry forceStop rest a3
          else
            ({ a2 with stoppedAtBlockEnd := false }, t'.error, rest)
      else
        let a3 := applyTask trig t a0
        if forceStop ∧ t.final then (a3, none, rest)
        else prqGo run trig canRetry forceStop rest a3
    else (a, none, t :: rest)

/-- Initial accumulator of `processResultQueue` (named return values start
zeroed, `outputTxNum = outputTxNumIn`). -/
def initAcc (outputTxNumIn : Nat) : PRQAcc :=
  { outputTxNum := outputTxNumIn, conflicts := 0, triggers := 0,
    processedBlockNum := 0, stoppedAtBlockEnd := false, i := 0,
    events := [], retried := [], popped := [], lastApplied := none }

/-- `processResultQueue(in, rws, outputTxNumIn, rs, agg, applyTx,
backPressure, applyWorker, canRetry, forceStopAtBlockEnd)`. -/
def processResultQueue (run : TxTask → Option String × Nat) (trig : TxTask → Nat)
    (canRetry forceStop : Bool) (queue : List TxTask)
    (outputTxNumIn : Nat) : PRQAcc × Option String × List TxTask :=
  prqGo run trig canRetry forceStop queue (initAcc outputTxNumIn)

/-- Transaction numbers of the `rs.ApplyState4` calls in a trace. -/
def applyStateNums (es : List Ev) : List Nat :=
  es.filterMap fun e => match e with | Ev.applyState4 n => some n | _ => none

/-- Transaction numbers of the `rs.CommitTxNum` calls in a trace (one per
applied task). -/
def commitNums (es : List Ev) : List Nat :=
  es.filterMap fun e => match e with | Ev.commitTxNum n => some n | _ => none

/-- Transaction numbers of the `rs.ApplyLogsAndTraces` calls in a trace. -/
def logsNums (es : List Ev) : List Nat :=
  es.filterMap fun e => match e with | Ev.applyLogsAndTraces n => some n | _ => none

/-! ## Block driver and the sequential (`parallel == false`) path of `ExecV3` -/

/-- The data of one block that `ExecV3`'s block loop reads: its number,
`len(txs)`, and the header fields `GasUsed`, `Root`, `Hash()`,
`ParentHash` (hashes and roots are abstracted to `Nat`). -/
structure Block where
  blockNum : Nat
  txCount : Nat
  headerGasUsed : Nat
  headerRoot : Nat
  headerHash : Nat
  parentHash : Nat
  deriving Repr, DecidableEq

/-- The `TxTask` built by the driver loop for a given `txIndex` of a block
(`Final: txIndex == len(txs)`; fresh tasks carry no error output). -/
def mkTask (b : Block) (txNum : Nat) (txIndex : Int) : TxTask :=
  { blockNum := b.blockNum, txIndex := txIndex, txNum := txNum,
    final := txIndex = (b.txCount : Int), error := none, usedGas := 0,
    readsValid := true, headerGasUsed := b.headerGasUsed }

/-- The driver's index range `for txIndex := -1; txIndex <= len(txs); txIndex++`. -/
def blockTaskIdxs (txCount : Nat) : List Int :=
  (List.range (txCount + 2)).map fun j => Int.ofNat j - 1

/-- Emit one task per index, incrementing `inputTxNum` after each. -/
def emitFrom (b : Block) : Nat → List Int → List TxTask
  | _, [] => []
  | txNum, idx :: rest => mkTask b txNum idx :: emitFrom b (txNum + 1) rest

/-- All tasks the driver emits for one block, starting at `startTxNum`. -/
def blockTasks (b : Block) (startTxNum : Nat) : List TxTask :=
  emitFrom b startTxNum (blockTaskIdxs b.txCount)

/-- All tasks the driver emits for a list of blocks (the `Loop` over
`blockNum`), threading `inputTxNum` across blocks. -/
def driverTasks : Nat → List Block → List TxTask
  | _, [] => []
  | startTxNum, b :: rest =>
      blockTasks b startTxNum ++ driverTasks (startTxNum + (b.txCount + 2)) rest

/-- Trace events of the sequential path of `ExecV3` (hashes as `Nat`). -/
inductive SEv where
  | applyState4 (txNum : Nat)
  | applyLogsAndTraces (txNum : Nat)
  | commitTxNum (txNum : Nat)
  /-- a task's execution reported an error (VM error or gas mismatch). -/
  | taskError (txNum : Nat)
  /-- `cfg.hd.ReportBadHeaderPoS(header.Hash(), header.ParentHash)`. -/
  | reportBadHeader (hash parentHash : Nat)
  | aggFlush
  | computeCommitment (blockNum : Nat)
  /-- `u.UnwindTo(target, hash)`. -/
  | unwindTo (target hash : Nat)
  /-- `execStage.Update(applyTx, blockNum)`. -/
  | stageUpdate (blockNum : Nat)
  /-- `applyTx.Commit()` inside the periodic (size-triggered) commit block. -/
  | commitTxPeriodic (outputTxNum : Nat)
  /-- `applyTx.Commit()` in the tail of `ExecV3`, after the block loop. -/
  | commitTxFinal (outputTxNum : Nat)
  deriving Repr, DecidableEq

/-- The configuration bits of `ExecV3` the sequential path branches on. -/
structure SeqCfg where
  badBlockHalt : Bool
  discardCommitment : Bool
  /-- `cfg.hd != nil`. -/
  hdPresent : Bool
  useExternalTx : Bool
  /-- `execStage.BlockNumber` (the stage progress before this run). -/
  stageStartBlock : Nat
  maxBlockNum : Nat
  deriving Repr, DecidableEq

/-- Mutable state of the sequential path. -/
structure SeqState where
  outputTxNum : Nat
  inputTxNum : Nat
  stageProgress : Nat
  gasUsed : Nat
  events : List SEv
  deriving Repr, DecidableEq

/-- Outcome of a piece of the block loop: continue, `return err`
(stage failure), or `break Loop`. -/
inductive SeqRes where
  | ok (s : SeqState)
  | failStage (s : SeqState) (msg : String)
  | brk (s : SeqState)
  deriving Repr, DecidableEq

/-- The error check of the sequential inline path
(`if txTask.Error != nil {...}; if txTask.Final { gasUsed += ...;
if gasUsed != header.GasUsed && blockNum > 0 {...} }`).
`gasAfter` is the accumulated gas including this task. -/
def seqTaskErr (b : Block) (gasAfter : Nat) (t : TxTask) : Option String :=
  match t.error with
  | some e => some e
  | none =>
    if t.final then
      if gasAfter ≠ b.headerGasUsed ∧ 0 < t.blockNum then
        some "gas used by execution does not match header"
      else none
    else none

/-- One iteration of the sequential inline task loop
(`exec3.go` lines 671-718): build the task, run it on the apply worker,
check error/gas, then `rs.ApplyState4`, `rs.ApplyLogsAndTraces`,
`rs.CommitTxNum`, `outputTxNum.Add(1)`, `stageProgress = blockNum`,
`inputTxNum++`.  On error: warn + `ReportBadHeaderPoS`; `return err` if
`badBlockHalt`, else `u.UnwindTo(blockNum-1, header.Hash())` and
`break Loop`. -/
def seqTask (cfg : SeqCfg) (run : TxTask → Option String × Nat) (b : Block)
    (s : SeqState) (txIndex : Int) : SeqRes :=
  let t0 := mkTask b s.inputTxNum txIndex
  if t0.error ≠ none then SeqRes.brk s   -- `if txTask.Error != nil { break Loop }`
  else
    let t := runApply run t0
    let gasAfter := s.gasUsed + t.usedGas
    match seqTaskErr b gasAfter t with
    | some msg =>
        let s1 := { s with events := s.events ++ [SEv.taskError t0.txNum] ++
          (if cfg.hdPresent then [SEv.reportBadHeader b.headerHash b.parentHash] else []) }
        if cfg.badBlockHalt then SeqRes.failStage s1 msg
        else SeqRes.brk
          { s1 with events := s1.events ++ [SEv.unwindTo (b.blockNum - 1) b.headerHash] }
    | none =>
        SeqRes.ok { s with
          gasUsed := if t.final then 0 else gasAfter,
          events := s.events ++ [SEv.applyState4 t0.txNum,
            SEv.applyLogsAndTraces t0.txNum, SEv.commitTxNum t0.txNum],
          outputTxNum := s.outputTxNum + 1,
          stageProgress := b.blockNum,
          inputTxNum := s.inputTxNum + 1 }

/-- The inner `for txIndex := -1; txIndex <= len(txs); txIndex++` loop. -/
def seqTasks (cfg : SeqCfg) (run : TxTask → Option String × Nat) (b : Block) :
    List Int → SeqState → SeqRes
  | [], s => SeqRes.ok s
  | idx :: rest, s =>
      match seqTask cfg run b s idx with
      | SeqRes.ok s1 => seqTasks cfg run b rest s1
      | SeqRes.failStage s1 msg => SeqRes.failStage s1 msg
      | SeqRes.brk s1 => SeqRes.brk s1

/-- The per-block root check (`exec3.go` lines 721-762):
`rh = agg.ComputeCommitment(true, false)`; on mismatch, fail the stage if
`badBlockHalt`, else `agg.Flush`, `ReportBadHeaderPoS`, and if
`maxBlockNum > execStage.BlockNumber` invoke
`u.UnwindTo((maxBlockNum+execStage.BlockNumber)/2, header.Hash())`,
then `break Loop`.  `commitment` is the aggregator oracle. -/
def rootCheck (cfg : SeqCfg) (commitment : Nat → Nat) (b : Block)
    (s : SeqState) : SeqRes :=
  if cfg.discardCommitment then SeqRes.ok s
  else
    let s1 := { s with events := s.events ++ [SEv.computeCommitment b.blockNum] }
    if commitment b.blockNum = b.headerRoot then SeqRes.ok s1
    else if cfg.badBlockHalt then SeqRes.failStage s1 "wrong trie root"
    else SeqRes.brk { s1 with events := s1.events ++ [SEv.aggFlush] ++
      (if cfg.hdPresent then [SEv.reportBadHeader b.headerHash b.parentHash] else []) ++
      (if cfg.stageStartBlock < cfg.maxBlockNum then
        [SEv.unwindTo ((cfg.maxBlockNum + cfg.stageStartBlock) / 2) b.headerHash]
      else []) }

/-- The periodic, size-triggered commit of the sequential path
(`exec3.go` lines 767-845, inside `case <-logEvery.C`): `doCommit b`
abstracts `tick fired && rs.SizeEstimate() >= commitThreshold`.  The commit
runs `agg.ComputeCommitment`, `agg.Flush`, `execStage.Update(blockNum)`
and, when the transaction is not caller-supplied, `applyTx.Commit()`. -/
def periodicCommit (cfg : SeqCfg) (doCommit : Nat → Bool) (b : Block)
    (s : SeqState) : SeqState :=
  if doCommit b.blockNum then
    { s with events := s.events ++
      [SEv.computeCommitment b.blockNum, SEv.aggFlush, SEv.stageUpdate b.blockNum] ++
      (if cfg.useExternalTx then [] else [SEv.commitTxPeriodic s.outputTxNum]) }
  else s

/-- The sequential block loop (`Loop:` in `ExecV3`): per block, reset the
`gasUsed` accumulator, run the task loop, the root check, then maybe the
periodic commit. -/
def seqBlocks (cfg : SeqCfg) (run : TxTask → Option String × Nat)
    (commitment : Nat → Nat) (doCommit : Nat → Bool) :
    List Block → SeqState → SeqRes
  | [], s => SeqRes.ok s
  | b :: rest, s =>
      match seqTasks cfg run b (blockTaskIdxs b.txCount) { s with gasUsed := 0 } with
      | SeqRes.ok s1 =>
          match rootCheck cfg commitment b s1 with
          | SeqRes.ok s2 =>
              seqBlocks cfg run commitment doCommit rest (periodicCommit cfg doCommit b s2)
          | SeqRes.failStage s2 msg => SeqRes.failStage s2 msg
          | SeqRes.brk s2 => SeqRes.brk s2
      | SeqRes.failStage s1 msg => SeqRes.failStage s1 msg
      | SeqRes.brk s1 => SeqRes.brk s1

/-- The tail of `ExecV3` after the block loop (non-parallel branch, reached
both on normal loop exit and on `break Loop`): `agg.Flush`,
`execStage.Update(applyTx, stageProgress)` and, when the transaction is not
caller-supplied, `applyTx.Commit()`. -/
def seqTail (cfg : SeqCfg) (s : SeqState) : SeqState :=
  let s1 := { s with events := s.events ++ [SEv.aggFlush, SEv.stageUpdate s.stageProgress] }
  if cfg.useExternalTx then s1
  else { s1 with events := s1.events ++ [SEv.commitTxFinal s1.outputTxNum] }

/-- The whole sequential path from a given state: block loop then tail.
Returns the final state and `some msg` exactly when the stage returns an
error (in which case the tail is skipped). -/
def seqRunFrom (cfg : SeqCfg) (run : TxTask → Option String × Nat)
    (commitment : Nat → Nat) (doCommit : Nat → Bool) (blocks : List Block)
    (s0 : SeqState) : SeqState × Option String :=
  match seqBlocks cfg run commitment doCommit blocks s0 with
  | SeqRes.ok s => (seqTail cfg s, none)
  | SeqRes.brk s => (seqTail cfg s, none)
  | SeqRes.failStage s msg => (s, some msg)

/-- Initial sequential state: `inputTxNum = outputTxNum` (both set from
`rawdbv3.TxNums.Max(tx, execStage.BlockNumber)+1`), `stageProgress =
execStage.BlockNumber`, empty trace. -/
def initSeqState (startTxNum stageStartBlock : Nat) : SeqState :=
  { outputTxNum := startTxNum, inputTxNum := startTxNum,
    stageProgress := stageStartBlock, gasUsed := 0, events := [] }

/-- Transaction numbers at block ends: `startTxNum + (txCount+2)` summed
over each complete block prefix.  A durable commit "at a block boundary"
is one whose `outputTxNum` is in this list (or is `startTxNum` itself). -/
def blockBoundaries : Nat → List Block → List Nat
  | _, [] => []
  | startTxNum, b :: rest =>
      (startTxNum + (b.txCount + 2)) ::
        blockBoundaries (startTxNum + (b.txCount + 2)) rest

/-- TxNums of the state-promotion calls (`ApplyState4`,
`ApplyLogsAndTraces`, `CommitTxNum`) in a sequential trace. -/
def seqApplyNums (es : List SEv) : List Nat :=
  es.filterMap fun e => match e with
    | SEv.applyState4 n => some n
    | SEv.applyLogsAndTraces n => some n
    | SEv.commitTxNum n => some n
    | _ => none

/-! ## The commit drain of the parallel `rwLoop` -/

/-- The heap discipline of `exec22.ResultsQueue` (modelled from the spec:
min-heap keyed by transaction number): re-establish ascending `txNum`
order after absorbing a drained batch. -/
def heapSort (q : List TxTask) : List TxTask :=
  List.insertionSort (fun a b => a.txNum ≤ b.txNum) q

/-- State of the commit sequence of the parallel `rwLoop`. -/
structure DrainState where
  queue : List TxTask
  outputTxNum : Nat
  blockComplete : Bool
  /-- ghost: the last task applied (by any drain iteration so far). -/
  lastApplied : Option TxTask
  deriving Repr, DecidableEq

/-- The drain loop at the head of the parallel commit sequence
(`exec3.go` lines 383-403): `for !blockComplete { rws.DrainNonBlocking();
processResultQueue(..., canRetry=false, forceStopAtBlockEnd=true);
if processedTxNum > 0 { outputTxNum.Store(processedTxNum);
blockComplete.Store(stoppedAtBlockEnd) } }`.  `incoming` is the stream of
batches `DrainNonBlocking` absorbs per iteration; `none` models the loop
never reaching a block end (no commit happens), including the case where
`processResultQueue` returns an error. -/
def commitDrain (run : TxTask → Option String × Nat) (trig : TxTask → Nat) :
    List (List TxTask) → DrainState → Option DrainState
  | incoming, s =>
    if s.blockComplete then some s
    else
      match incoming with
      | [] => none
      | batch :: restIncoming =>
          let r := prqGo run trig false true (heapSort (s.queue ++ batch))
            (initAcc s.outputTxNum)
          match r.2.1 with
          | some _ => none
          | none =>
              commitDrain run trig restIncoming
                { queue := r.2.2,
                  outputTxNum := if 0 < r.1.outputTxNum then r.1.outputTxNum else s.outputTxNum,
                  blockComplete := if 0 < r.1.outputTxNum then r.1.stoppedAtBlockEnd else s.blockComplete,
                  lastApplied := match r.1.lastApplied with
                    | some t => some t
                    | none => s.lastApplied }

/-! ## Reconstitution: block-boundary mapping and `ExecV3` entry -/

/-- The `rawdbv3.TxNums` oracle used by reconstitution:
`FindBlockNum(txNum) -> (ok, blockNum)`, `Min(blockNum)`, `Max(blockNum)`. -/
structure TxNumsOracle where
  findBlockNum : Nat → Bool × Nat
  minTxNum : Nat → Nat
  maxTxNum : Nat → Nat

/-- Block/tx bounds a reconstitution step replays. -/
structure ReconStepPlan where
  startTxNum : Nat
  endTxNum : Nat
  startBlockNum : Nat
  endBlockNum : Nat
  deriving Repr, DecidableEq

/-- The prologue of `reconstituteStep` (`exec3.go` lines 1053-1084):
map the step's `[startTxNum, endTxNum]` to block numbers via
`FindBlockNum`; a failed mapping is a fatal error, raised before any
scan/replay work. -/
def reconstituteStepBounds (o : TxNumsOracle) (last : Bool)
    (blockNum stepStart stepEnd : Nat) : Except String ReconStepPlan :=
  let p1 := o.findBlockNum stepStart
  let startBlockNum := if 0 < p1.2 then p1.2 - 1 else p1.2
  let startTxNum := if 0 < p1.2 then o.minTxNum startBlockNum else stepStart
  let p2 := o.findBlockNum stepEnd
  if !p1.1 then Except.error "step startTxNum not found in snapshot blocks"
  else if !p2.1 then Except.error "step endTxNum not found in snapshot blocks"
  else Except.ok
    { startTxNum := startTxNum, endTxNum := stepEnd,
      startBlockNum := startBlockNum,
      endBlockNum := if last then blockNum else p2.2 }

/-- `reconstituteStep` = bounds prologue, then the scan/replay/flush work
(abstracted as `replay`, which only runs when the prologue succeeded). -/
def reconstituteStep (o : TxNumsOracle) (last : Bool)
    (blockNum stepStart stepEnd : Nat)
    (replay : ReconStepPlan → Except String Unit) : Except String Unit :=
  match reconstituteStepBounds o last blockNum stepStart stepEnd with
  | Except.error e => Except.error e
  | Except.ok plan => replay plan

/-- The top-level mapping in `ReconstituteState` (`exec3.go` lines
1596-1618): `FindBlockNum(toTxNum)`; `!ok` and `blockNum == 0` are fatal;
otherwise the result is `(blockNum-1, TxNums.Max(blockNum-1)+1)`. -/
def reconstituteStateBounds (o : TxNumsOracle) (toTxNum : Nat) :
    Except String (Nat × Nat) :=
  let p := o.findBlockNum toTxNum
  if !p.1 then Except.error "blockNum for mininmaxTxNum not found"
  else if p.2 = 0 then Except.error "not enough transactions in the history data"
  else Except.ok (p.2 - 1, o.maxTxNum (p.2 - 1) + 1)

/-- Entry of `ExecV3`: the caller-supplied `parallel` flag is immediately
overwritten (`parallel = false // TODO: e35 doesn't support it yet`), so
the parallel pipeline (here: the rwLoop commit drain) is dead and the
sequential path always runs. -/
def ExecV3run (cfg : SeqCfg) (run : TxTask → Option String × Nat)
    (trig : TxTask → Nat) (commitment : Nat → Nat) (doCommit : Nat → Bool)
    (blocks : List Block) (incoming : List (List TxTask))
    (s0 : SeqState) (d0 : DrainState) (parallel : Bool) :
    Sum (Option DrainState) (SeqState × Option String) :=
  let parallel := false
  if parallel then Sum.inl (commitDrain run trig incoming d0)
  else Sum.inr (seqRunFrom cfg run commitment doCommit blocks s0)

/-! ## Reconstitution transpose (`exec3.go` lines 1371-1556)

The scratch tables (`PlainStateR`/`CodeR`/`PlainContractR`) hold rows keyed
`[txNum(8) | domainKey]`; the tombstone tables (`*D`, dup-sorted) hold rows
keyed `[txNum(8)]` with the domain key as value.  The transpose collects
rows re-keyed `[domainKey | txNum(8)]` into a sorted ETL buffer, then a
single scan folds consecutive rows with equal `k[:len(k)-8]`, keeping only
the last (= highest `txNum`) value; a `nil` (or empty) value becomes a
delete of the key in the main table. -/

/-- Byte strings as lists of byte values. -/
abbrev Bytes := List Nat

/-- `binary.BigEndian.PutUint64`: `w`-byte big-endian encoding of `n % 256^w`. -/
def beBytes : Nat → Nat → Bytes
  | 0, _ => []
  | w + 1, n => (n / 256 ^ w) % 256 :: beBytes w (n % 256 ^ w)

/-- A row of a scratch value table (`PlainStateR` / `CodeR` /
`PlainContractR`): written at `tx`, for domain key `key`, value `val`. -/
structure RRec where
  tx : Nat
  key : Bytes
  val : Bytes
  deriving Repr, DecidableEq

/-- A row of a scratch tombstone table (`PlainStateD` / ...): at `tx`,
domain key `key` was deleted. -/
structure DRec where
  tx : Nat
  key : Bytes
  deriving Repr, DecidableEq

/-- Raw `(k, v)` pair of an R-table row: `k = [txNum(8) | key]`. -/
def rRowRaw (r : RRec) : Bytes × Bytes := (beBytes 8 r.tx ++ r.key, r.val)

/-- Raw `(k, v)` pair of a D-table row: `k = [txNum(8)]`, `v = key`. -/
def dRowRaw (d : DRec) : Bytes × Bytes := (beBytes 8 d.tx, d.key)

/-- The `ForEach` body over an R table:
`transposedKey = k[8:] ++ k[:8]; Collect(transposedKey, v)`. -/
def transposeRRow (kv : Bytes × Bytes) : Bytes × Option Bytes :=
  (kv.1.drop 8 ++ kv.1.take 8, some kv.2)

/-- The `ForEach` body over a D table:
`transposedKey = v ++ k; Collect(transposedKey, nil)`. -/
def transposeDRow (kv : Bytes × Bytes) : Bytes × Option Bytes :=
  (kv.2 ++ kv.1, none)

/-- Everything collected into one ETL collector from the value table `rT`
and the tombstone table `dT`. -/
def collected (rT : List RRec) (dT : List DRec) : List (Bytes × Option Bytes) :=
  rT.map (fun r => transposeRRow (rRowRaw r)) ++
    dT.map (fun d => transposeDRow (dRowRaw d))

/-- `bytes.Compare(a, b) < 0`: strict lexicographic order on byte strings. -/
def bytesLt : Bytes → Bytes → Bool
  | _, [] => false
  | [], _ :: _ => true
  | a :: as, b :: bs => if a < b then true else if a = b then bytesLt as bs else false

/-- The (total pre)order by which the ETL sortable buffer sorts collected
pairs: by raw transposed key, ascending. -/
def etlLe (a b : Bytes × Option Bytes) : Prop := bytesLt b.1 a.1 = false

instance : DecidableRel etlLe := fun a b =>
  inferInstanceAs (Decidable (bytesLt b.1 a.1 = false))

/-- The ETL collector yields its rows sorted by key. -/
def etlSort (l : List (Bytes × Option Bytes)) : List (Bytes × Option Bytes) :=
  List.insertionSort etlLe l

/-- A write to the destination main-store table during `Load`. -/
inductive Op where
  | put (k v : Bytes)
  | del (k : Bytes)
  deriving Repr, DecidableEq

/-- What one folded group is loaded as: a non-empty value is a `Put`, a
`nil` or empty value a `Delete` (the ETL loader and the explicit trailing
`if len(lastVal) > 0 { Put } else { Delete }` both treat empty as delete). -/
def finOp (k : Bytes) (v : Option Bytes) : Op :=
  match v with
  | some w => if w = [] then Op.del k else Op.put k w
  | none => Op.del k

/-- The fold inside `Load` (`exec3.go` lines 1456-1485): scan rows in key
order; when `k[:len(k)-8]` changes, emit the previous group's key with its
last value (`lastKey`/`lastVal` state machine; `lastKey = none` models the
initial Go `nil`). -/
def rawLoadGo : List (Bytes × Option Bytes) → Option Bytes → Option Bytes → List Op
  | [], none, _ => []
  | [], some lk, lv => [finOp lk lv]
  | (k, v) :: rest, lk, lv =>
      let kk := k.take (k.length - 8)
      if lk = some kk then rawLoadGo rest lk v
      else
        (match lk with | some l => [finOp l lv] | none => []) ++
          rawLoadGo rest (some kk) v

/-- The whole fold, starting with no previous key. -/
def rawLoad (l : List (Bytes × Option Bytes)) : List Op := rawLoadGo l none none

/-- Apply one load op to a main-store table (modelled as a map). -/
def applyOp (st : Bytes → Option Bytes) (op : Op) : Bytes → Option Bytes :=
  fun q =>
    match op with
    | Op.put k v => if q = k then some v else st q
    | Op.del k => if q = k then none else st q

/-- Apply all load ops in order. -/
def applyOps (st : Bytes → Option Bytes) (ops : List Op) : Bytes → Option Bytes :=
  ops.foldl applyOp st

/-- The op sequence the transpose produces for one table triple. -/
def reconTransposeOps (rT : List RRec) (dT : List DRec) : List Op :=
  rawLoad (etlSort (collected rT dT))

/-- The main-store table after the transpose. -/
def reconFinalState (st : Bytes → Option Bytes) (rT : List RRec)
    (dT : List DRec) : Bytes → Option Bytes :=
  applyOps st (reconTransposeOps rT dT)

/-- A scratch record in structured form: domain key, txNum, and value
(`none` = tombstone). -/
structure SRec where
  key : Bytes
  tx : Nat
  val : Option Bytes
  deriving Repr, DecidableEq

/-- All scratch records of a table triple, structured. -/
def entriesAll (rT : List RRec) (dT : List DRec) : List SRec :=
  rT.map (fun r => ⟨r.key, r.tx, some r.val⟩) ++
    dT.map (fun d => ⟨d.key, d.tx, none⟩)

/-- The transposed raw pair of a structured record. -/
def encodeS (e : SRec) : Bytes × Option Bytes := (e.key ++ beBytes 8 e.tx, e.val)

/-- Structured view of the `Load` fold (group key compared directly). -/
def sLoadGo : List SRec → Bytes → Option Bytes → List Op
  | [], lk, lv => [finOp lk lv]
  | e :: rest, lk, lv =>
      if e.key = lk then sLoadGo rest lk e.val
      else finOp lk lv :: sLoadGo rest e.key e.val

/-- Structured view of the whole fold. -/
def sLoad : List SRec → List Op
  | [] => []
  | e :: rest => sLoadGo rest e.key e.val

/-- Order on structured records induced by the raw key order. -/
def sLe (e f : SRec) : Prop := bytesLt (encodeS f).1 (encodeS e).1 = false

instance : DecidableRel sLe := fun e f =>
  inferInstanceAs (Decidable (bytesLt (encodeS f).1 (encodeS e).1 = false))

/-- Structured mirror of `etlSort`. -/
def sSort (es : List SRec) : List SRec := List.insertionSort sLe es

/-- Records of one domain key appear in increasing `txNum` order: what
the key-sorted ETL order guarantees for records of a fixed key, whatever
the lengths of the other keys in the buffer (`PlainState` rows mix
account and storage keys of different lengths). -/
def keyTxLt (e f : SRec) : Prop := e.key = f.key → e.tx < f.tx

/-- `max`-merge of two optional (txNum, value) results (ties keep the
left argument). -/
def mergeOpt : Option (Nat × Option Bytes) → Option (Nat × Option Bytes) →
    Option (Nat × Option Bytes)
  | acc, none => acc
  | none, some r => some r
  | some (t, v), some (t', v') => if t < t' then some (t', v') else some (t, v)

/-- Fold step: keep the latest (largest txNum) record for key `k`. -/
def latestUpd (k : Bytes) (acc : Option (Nat × Option Bytes)) (e : SRec) :
    Option (Nat × Option Bytes) :=
  if e.key = k then
    match acc with
    | none => some (e.tx, e.val)
    | some (t, v) => if t < e.tx then some (e.tx, e.val) else some (t, v)
  else acc

/-- The latest (largest txNum) record for key `k` among the scratch
records, if any. -/
def latestFor (k : Bytes) (es : List SRec) : Option (Nat × Option Bytes) :=
  es.foldl (latestUpd k) none

/-- The main-store content the latest record dictates for key `k`:
untouched if there is none, deleted if it is a tombstone, else its value. -/
def latestEffect (st : Bytes → Option Bytes) (k : Bytes)
    (res : Option (Nat × Option Bytes)) : Option Bytes :=
  match res with
  | none => st k
  | some (_, none) => none
  | some (_, some v) => some v

/-- Values that actually occur in the scratch value tables: a tombstone or
a non-empty byte string (an empty stored value is indistinguishable from a
delete for the loader). -/
def valOk : Option Bytes → Prop
  | some w => w ≠ []
  | none => True

instance : ∀ v : Option Bytes, Decidable (valOk v)
  | some w => inferInstanceAs (Decidable (w ≠ []))
  | none => inferInstanceAs (Decidable True)

/-- The state carried by a `SeqRes`, whatever the outcome. -/
def SeqRes.state : SeqRes → SeqState
  | SeqRes.ok s => s
  | SeqRes.failStage s _ => s
  | SeqRes.brk s => s

/-- No state-promotion event in the trace is at or past the current
`outputTxNum` (promotion happens strictly before the counter advances
past it). -/
def seqNoPromoteAfter (s : SeqState) : Prop :=
  ∀ n, (SEv.applyState4 n ∈ s.events ∨ SEv.applyLogsAndTraces n ∈ s.events ∨
    SEv.commitTxNum n ∈ s.events) → n < s.outputTxNum

/-- The trace holds no task error. -/
def seqNoErr (s : SeqState) : Prop := ∀ n, SEv.taskError n ∉ s.events

/-- Any task error in the trace is at or past the current `outputTxNum`
(the counter never advanced past a failed task). -/
def seqErrStopped (s : SeqState) : Prop :=
  ∀ n, SEv.taskError n ∈ s.events → s.outputTxNum ≤ n

/-- Total number of driver tasks of a block list. -/
def tasksTotal : List Block → Nat
  | [] => 0
  | b :: rest => (b.txCount + 2) + tasksTotal rest

/-! ## Concrete sample data (used by witnesses and counterexamples) -/

/-- A worker oracle that always succeeds using no gas. -/
def run0 : TxTask → Option String × Nat := fun _ => (none, 0)

/-- A trigger oracle returning no triggers. -/
def trig0 : TxTask → Nat := fun _ => 0

/-- A clean non-final task at txNum 10. -/
def sampleT10 : TxTask :=
  { blockNum := 1, txIndex := 0, txNum := 10, final := false, error := none,
    usedGas := 0, readsValid := true, headerGasUsed := 0 }

/-- A clean final task at txNum 11. -/
def sampleT11 : TxTask :=
  { sampleT10 with txIndex := 1, txNum := 11, final := true }

/-- A clean final (block-end) task at txNum 10. -/
def sampleF10 : TxTask := { sampleT10 with final := true }

/-- A conflicting (stale read set) task at txNum 10. -/
def sampleConflict : TxTask := { sampleT10 with readsValid := false }

/-- An accumulator that already resolved one conflict in place (`i = 1`). -/
def sampleAccI1 : PRQAcc := { initAcc 10 with i := 1 }

/-- A trivial empty block numbered `n` with header hash `100+n`,
parent hash `99+n`, root `n`, no gas. -/
def demoBlock (n : Nat) : Block :=
  { blockNum := n, txCount := 0, headerGasUsed := 0, headerRoot := n,
    headerHash := 100 + n, parentHash := 99 + n }

/-- Config for the root-mismatch scenario: stage previously at block 10,
target 20, halt disabled, internal transaction. -/
def demoCfgRoot : SeqCfg :=
  { badBlockHalt := false, discardCommitment := false, hdPresent := true,
    useExternalTx := false, stageStartBlock := 10, maxBlockNum := 20 }

/-- Commitment oracle that disagrees with the header root exactly at
block 14. -/
def demoCommitMismatch14 : Nat → Nat := fun bn => if bn = 14 then 999 else bn

/-- A one-transaction block whose header declares 5 gas. -/
def demoGasBlock : Block :=
  { blockNum := 1, txCount := 1, headerGasUsed := 5, headerRoot := 0,
    headerHash := 7, parentHash := 6 }

/-- Config for the gas-mismatch scenario (halt disabled). -/
def demoCfgGas : SeqCfg :=
  { badBlockHalt := false, discardCommitment := false, hdPresent := true,
    useExternalTx := false, stageStartBlock := 0, maxBlockNum := 1 }

/-- Worker oracle spending 3 gas on the only transaction (so the block
total is 3, not the declared 5). -/
def demoRunGas3 : TxTask → Option String × Nat :=
  fun t => (none, if t.txIndex = 0 then 3 else 0)

/-- A `TxNums` oracle whose `FindBlockNum` never locates a block. -/
def failOracle : TxNumsOracle :=
  { findBlockNum := fun _ => (false, 0), minTxNum := fun _ => 0,
    maxTxNum := fun _ => 0 }

/-- An empty main-store table. -/
def demoSt : Bytes → Option Bytes := fun _ => none

/-- A scratch value table with keys of different lengths: the short key
`[5]` is written at two transaction numbers whose big-endian encodings
straddle the longer key `[5, 200]`, so the key-sorted buffer interleaves
the two groups (`[5]`@100·2⁵⁶, then `[5, 200]`@11, then `[5]`@201·2⁵⁶). -/
def demoRT : List RRec :=
  [⟨100 * 2 ^ 56, [5], [8]⟩, ⟨11, [5, 200], [7]⟩, ⟨201 * 2 ^ 56, [5], [9]⟩]

/-- A scratch tombstone table: key `[6]` deleted at tx 12. -/
def demoDT : List DRec := [⟨12, [6]⟩]

/-! # Theorems -/

theorem commitNums_append (es fs : List Ev) :
    commitNums (es ++ fs) = commitNums es ++ commitNums fs := by
  simp [commitNums, List.filterMap_append]

theorem applyStateNums_append (es fs : List Ev) :
    applyStateNums (es ++ fs) = applyStateNums es ++ applyStateNums fs := by
  simp [applyStateNums, List.filterMap_append]

theorem logsNums_append (es fs : List Ev) :
    logsNums (es ++ fs) = logsNums es ++ logsNums fs := by
  simp [logsNums, List.filterMap_append]

theorem commitNums_nil : commitNums [] = [] := rfl

theorem commitNums_cons_reExec (n : Nat) (es : List Ev) :
    commitNums (Ev.reExec n :: es) = commitNums es := rfl

theorem commitNums_cons_applyState4 (n : Nat) (es : List Ev) :
    commitNums (Ev.applyState4 n :: es) = commitNums es := rfl

theorem commitNums_cons_commit (n : Nat) (es : List Ev) :
    commitNums (Ev.commitTxNum n :: es) = n :: commitNums es := rfl

theorem commitNums_cons_logs (n : Nat) (es : List Ev) :
    commitNums (Ev.applyLogsAndTraces n :: es) = commitNums es := rfl

theorem applyStateNums_nil : applyStateNums [] = [] := rfl

theorem applyStateNums_cons_reExec (n : Nat) (es : List Ev) :
    applyStateNums (Ev.reExec n :: es) = applyStateNums es := rfl

theorem applyStateNums_cons_applyState4 (n : Nat) (es : List Ev) :
    applyStateNums (Ev.applyState4 n :: es) = n :: applyStateNums es := rfl

theorem applyStateNums_cons_commit (n : Nat) (es : List Ev) :
    applyStateNums (Ev.commitTxNum n :: es) = applyStateNums es := rfl

theorem applyStateNums_cons_logs (n : Nat) (es : List Ev) :
    applyStateNums (Ev.applyLogsAndTraces n :: es) = applyStateNums es := rfl

theorem logsNums_nil : logsNums [] = [] := rfl

theorem logsNums_cons_reExec (n : Nat) (es : List Ev) :
    logsNums (Ev.reExec n :: es) = logsNums es := rfl

theorem logsNums_cons_applyState4 (n : Nat) (es : List Ev) :
    logsNums (Ev.applyState4 n :: es) = logsNums es := rfl

theorem logsNums_cons_commit (n : Nat) (es : List Ev) :
    logsNums (Ev.commitTxNum n :: es) = logsNums es := rfl

theorem logsNums_cons_logs (n : Nat) (es : List Ev) :
    logsNums (Ev.applyLogsAndTraces n :: es) = n :: logsNums es := rfl

theorem applyTask_events (trig : TxTask → Nat) (t : TxTask) (a : PRQAcc) :
    (applyTask trig t a).events = a.events ++
      (if t.final then [Ev.applyState4 t.txNum] else []) ++
      [Ev.commitTxNum t.txNum, Ev.applyLogsAndTraces t.txNum] := rfl

theorem applyTask_outputTxNum (trig : TxTask → Nat) (t : TxTask) (a : PRQAcc) :
    (applyTask trig t a).outputTxNum = a.outputTxNum + 1 := rfl

theorem commitNums_applyTask (trig : TxTask → Nat) (t : TxTask) (a : PRQAcc) :
    commitNums (applyTask trig t a).events = commitNums a.events ++ [t.txNum] := by
  cases h : t.final <;>
    simp [applyTask_events, h, commitNums_append, commitNums_cons_applyState4,
      commitNums_cons_commit, commitNums_cons_logs, commitNums_nil]

theorem applyStateNums_applyTask (trig : TxTask → Nat) (t : TxTask) (a : PRQAcc) :
    applyStateNums (applyTask trig t a).events =
      applyStateNums a.events ++ (if t.final then [t.txNum] else []) := by
  cases h : t.final <;>
    simp [applyTask_events, h, applyStateNums_append, applyStateNums_cons_applyState4,
      applyStateNums_cons_commit, applyStateNums_cons_logs, applyStateNums_nil]

theorem logsNums_applyTask (trig : TxTask → Nat) (t : TxTask) (a : PRQAcc) :
    logsNums (applyTask trig t a).events = logsNums a.events ++ [t.txNum] := by
  cases h : t.final <;>
    simp [applyTask_events, h, logsNums_append, logsNums_cons_applyState4,
      logsNums_cons_commit, logsNums_cons_logs, logsNums_nil]

/-- Master invariant of the `processResultQueue` loop: the output
transaction number never decreases, and the `rs.CommitTxNum` calls it adds
are exactly the consecutive numbers from the incoming `outputTxNum` to the
final one. -/
theorem prqGo_main (run : TxTask → Option String × Nat) (trig : TxTask → Nat)
    (cr fs : Bool) : ∀ (q : List TxTask) (a : PRQAcc),
    a.outputTxNum ≤ (prqGo run trig cr fs q a).1.outputTxNum ∧
    commitNums (prqGo run trig cr fs q a).1.events =
      commitNums a.events ++ List.range' a.outputTxNum
        ((prqGo run trig cr fs q a).1.outputTxNum - a.outputTxNum) := by
  intro q
  induction q with
  | nil => intro a; simp [prqGo]
  | cons t rest ih =>
    intro a
    by_cases h1 : t.txNum = a.outputTxNum
    · by_cases h2 : isConflict t
      · by_cases h3 : 0 < a.i ∧ cr = true
        · -- retry lane: task skipped, nothing applied for it
          have heq : prqGo run trig cr fs (t :: rest) a =
              prqGo run trig cr fs rest
                { a with
                  popped := a.popped ++ [t], conflicts := a.conflicts + 1,
                  retried := a.retried ++ [t] } := by
            simp [prqGo, h1, h2, h3]
          rw [heq]
          exact ih { a with
            popped := a.popped ++ [t], conflicts := a.conflicts + 1,
            retried := a.retried ++ [t] }
        · -- first conflict (or retry disallowed): re-execute in place
          by_cases h4 : (runApply run t).error = none
          · by_cases h5 : fs ∧ (runApply run t).final = true
            · have heq : prqGo run trig cr fs (t :: rest) a =
                  (applyTask trig (runApply run t)
                    { a with
                      popped := a.popped ++ [t],
                      conflicts := a.conflicts + 1,
                      events := a.events ++ [Ev.reExec t.txNum], i := a.i + 1 },
                   none, rest) := by
                simp [prqGo, h1, h2, h3, h4, h5]
              rw [heq]
              refine ⟨Nat.le_succ _, ?_⟩
              simp [commitNums_applyTask, applyTask_outputTxNum, commitNums_append,
                commitNums_cons_reExec, commitNums_nil, runApply, h1]
            · have heq : prqGo run trig cr fs (t :: rest) a =
                  prqGo run trig cr fs rest
                    (applyTask trig (runApply run t)
                      { a with
                        popped := a.popped ++ [t],
                        conflicts := a.conflicts + 1,
                        events := a.events ++ [Ev.reExec t.txNum], i := a.i + 1 }) := by
                simp [prqGo, h1, h2, h3, h4, h5]
              rw [heq]
              rcases ih (applyTask trig (runApply run t)
                { a with
                  popped := a.popped ++ [t], conflicts := a.conflicts + 1,
                  events := a.events ++ [Ev.reExec t.txNum], i := a.i + 1 }) with ⟨hle, hcm⟩
              rw [applyTask_outputTxNum] at hle
              refine ⟨by exact le_trans (Nat.le_succ _) hle, ?_⟩
              rw [hcm, commitNums_applyTask, applyTask_outputTxNum]
              have h6 : commitNums ({ a with
                  popped := a.popped ++ [t],
                  conflicts := a.conflicts + 1,
                  events := a.events ++ [Ev.reExec t.txNum], i := a.i + 1} : PRQAcc).events
                  = commitNums a.events := by
                simp [commitNums_append, commitNums_cons_reExec, commitNums_nil]
              rw [h6]
              have hn : (runApply run t).txNum = a.outputTxNum := h1
              rw [hn]
              set m := (prqGo run trig cr fs rest (applyTask trig (runApply run t)
                { a with
                  popped := a.popped ++ [t], conflicts := a.conflicts + 1,
                  events := a.events ++ [Ev.reExec t.txNum],
                  i := a.i + 1 })).1.outputTxNum with hm
              have hd : m - a.outputTxNum = (m - (a.outputTxNum + 1)) + 1 := by
                simp only [applyTask_outputTxNum] at hle
                omega
              rw [hd, List.range'_succ _ _ 1]
              simp
          · -- re-execution still failed: error return, nothing applied for it
            have heq : (prqGo run trig cr fs (t :: rest) a).1 =
                { a with
                  popped := a.popped ++ [t], conflicts := a.conflicts + 1,
                  events := a.events ++ [Ev.reExec t.txNum],
                  stoppedAtBlockEnd := false } := by
              simp [prqGo, h1, h2, h3, h4]
            rw [heq]
            simp [commitNums_append, commitNums_cons_reExec, commitNums_nil]
      · -- no conflict: straight apply
        by_cases h5 : fs ∧ t.final = true
        · have heq : prqGo run trig cr fs (t :: rest) a =
              (applyTask trig t { a with popped := a.popped ++ [t] }, none, rest) := by
            simp [prqGo, h1, h2, h5]
          rw [heq]
          refine ⟨Nat.le_succ _, ?_⟩
          simp [commitNums_applyTask, applyTask_outputTxNum, h1]
        · have heq : prqGo run trig cr fs (t :: rest) a =
              prqGo run trig cr fs rest
                (applyTask trig t { a with popped := a.popped ++ [t] }) := by
            simp [prqGo, h1, h2, h5]
          rw [heq]
          rcases ih (applyTask trig t { a with popped := a.popped ++ [t] }) with ⟨hle, hcm⟩
          rw [applyTask_outputTxNum] at hle
          refine ⟨by exact le_trans (Nat.le_succ _) hle, ?_⟩
          rw [hcm, commitNums_applyTask, applyTask_outputTxNum]
          have h6 : commitNums ({ a with popped := a.popped ++ [t] } : PRQAcc).events
              = commitNums a.events := rfl
          rw [h6, h1]
          set m := (prqGo run trig cr fs rest (applyTask trig t
            { a with popped := a.popped ++ [t] })).1.outputTxNum with hm
          have hle' : a.outputTxNum + 1 ≤ m := hle
          have hd : m - a.outputTxNum = (m - (a.outputTxNum + 1)) + 1 := by omega
          rw [hd, List.range'_succ _ _ 1]
          simp
    · have heq : prqGo run trig cr fs (t :: rest) a = (a, none, t :: rest) := by
        simp [prqGo, h1]
      rw [heq]
      simp

/-- Preserved invariants of the `processResultQueue` loop: the
`ApplyState4` transaction numbers are a subsequence of the `CommitTxNum`
ones (`ApplyState4` runs only for `Final` tasks), `ApplyLogsAndTraces`
runs exactly once per applied task, and `stoppedAtBlockEnd` is only true
when the last applied task was final. -/
theorem prqGo_inv (run : TxTask → Option String × Nat) (trig : TxTask → Nat)
    (cr fs : Bool) : ∀ (q : List TxTask) (a : PRQAcc),
    ((applyStateNums a.events).Sublist (commitNums a.events) →
      (applyStateNums (prqGo run trig cr fs q a).1.events).Sublist
        (commitNums (prqGo run trig cr fs q a).1.events)) ∧
    ((logsNums a.events = commitNums a.events) →
      logsNums (prqGo run trig cr fs q a).1.events =
        commitNums (prqGo run trig cr fs q a).1.events) ∧
    ((a.stoppedAtBlockEnd = true →
        ∃ t, a.lastApplied = some t ∧ t.final = true) →
      ((prqGo run trig cr fs q a).1.stoppedAtBlockEnd = true →
        ∃ t, (prqGo run trig cr fs q a).1.lastApplied = some t ∧ t.final = true)) := by
  intro q
  induction q with
  | nil => intro a; exact ⟨id, id, id⟩
  | cons t rest ih =>
    intro a
    have happly : ∀ (t' : TxTask) (b : PRQAcc),
        ((applyStateNums b.events).Sublist (commitNums b.events) →
          (applyStateNums (applyTask trig t' b).events).Sublist
            (commitNums (applyTask trig t' b).events)) ∧
        ((logsNums b.events = commitNums b.events) →
          logsNums (applyTask trig t' b).events =
            commitNums (applyTask trig t' b).events) ∧
        ((applyTask trig t' b).stoppedAtBlockEnd = true →
          ∃ u, (applyTask trig t' b).lastApplied = some u ∧ u.final = true) := by
      intro t' b
      refine ⟨?_, ?_, ?_⟩
      · intro hsub
        rw [applyStateNums_applyTask, commitNums_applyTask]
        refine List.Sublist.append hsub ?_
        cases t'.final <;> simp
      · intro hle
        rw [logsNums_applyTask, commitNums_applyTask, hle]
      · intro hstop
        exact ⟨t', rfl, hstop⟩
    by_cases h1 : t.txNum = a.outputTxNum
    · by_cases h2 : isConflict t
      · by_cases h3 : 0 < a.i ∧ cr = true
        · have heq : prqGo run trig cr fs (t :: rest) a =
              prqGo run trig cr fs rest
                { a with
                  popped := a.popped ++ [t], conflicts := a.conflicts + 1,
                  retried := a.retried ++ [t] } := by
            simp [prqGo, h1, h2, h3]
          rw [heq]
          exact ih { a with
            popped := a.popped ++ [t], conflicts := a.conflicts + 1,
            retried := a.retried ++ [t] }
        · by_cases h4 : (runApply run t).error = none
          · by_cases h5 : fs ∧ (runApply run t).final = true
            · have heq : prqGo run trig cr fs (t :: rest) a =
                  (applyTask trig (runApply run t)
                    { a with
                      popped := a.popped ++ [t],
                      conflicts := a.conflicts + 1,
                      events := a.events ++ [Ev.reExec t.txNum], i := a.i + 1 },
                   none, rest) := by
                simp [prqGo, h1, h2, h3, h4, h5]
              rw [heq]
              rcases happly (runApply run t)
                { a with
                  popped := a.popped ++ [t], conflicts := a.conflicts + 1,
                  events := a.events ++ [Ev.reExec t.txNum], i := a.i + 1 } with ⟨p1, p2, p3⟩
              refine ⟨?_, ?_, fun _ => p3⟩
              · intro hsub
                refine p1 ?_
                simpa [applyStateNums_append, commitNums_append,
                  applyStateNums_cons_reExec, commitNums_cons_reExec,
                  applyStateNums_nil, commitNums_nil] using hsub
              · intro hle
                refine p2 ?_
                simpa [logsNums_append, commitNums_append,
                  logsNums_cons_reExec, commitNums_cons_reExec,
                  logsNums_nil, commitNums_nil] using hle
            · have heq : prqGo run trig cr fs (t :: rest) a =
                  prqGo run trig cr fs rest
                    (applyTask trig (runApply run t)
                      { a with
                        popped := a.popped ++ [t],
                        conflicts := a.conflicts + 1,
                        events := a.events ++ [Ev.reExec t.txNum], i := a.i + 1 }) := by
                simp [prqGo, h1, h2, h3, h4, h5]
              rw [heq]
              rcases happly (runApply run t)
                { a with
                  popped := a.popped ++ [t], conflicts := a.conflicts + 1,
                  events := a.events ++ [Ev.reExec t.txNum], i := a.i + 1 } with ⟨p1, p2, p3⟩
              rcases ih (applyTask trig (runApply run t)
                { a with
                  popped := a.popped ++ [t], conflicts := a.conflicts + 1,
                  events := a.events ++ [Ev.reExec t.txNum], i := a.i + 1 }) with ⟨q1, q2, q3⟩
              refine ⟨?_, ?_, fun _ => q3 p3⟩
              · intro hsub
                refine q1 (p1 ?_)
                simpa [applyStateNums_append, commitNums_append,
                  applyStateNums_cons_reExec, commitNums_cons_reExec,
                  applyStateNums_nil, commitNums_nil] using hsub
              · intro hle
                refine q2 (p2 ?_)
                simpa [logsNums_append, commitNums_append,
                  logsNums_cons_reExec, commitNums_cons_reExec,
                  logsNums_nil, commitNums_nil] using hle
          · have heq : (prqGo run trig cr fs (t :: rest) a).1 =
                { a with
                  popped := a.popped ++ [t], conflicts := a.conflicts + 1,
                  events := a.events ++ [Ev.reExec t.txNum],
                  stoppedAtBlockEnd := false } := by
              simp [prqGo, h1, h2, h3, h4]
            rw [heq]
            refine ⟨?_, ?_, ?_⟩
            · intro hsub
              simpa [applyStateNums_append, commitNums_append,
                applyStateNums_cons_reExec, commitNums_cons_reExec,
                applyStateNums_nil, commitNums_nil] using hsub
            · intro hle
              simpa [logsNums_append, commitNums_append,
                logsNums_cons_reExec, commitNums_cons_reExec,
                logsNums_nil, commitNums_nil] using hle
            · intro _ h
              simp at h
      · by_cases h5 : fs ∧ t.final = true
        · have heq : prqGo run trig cr fs (t :: rest) a =
              (applyTask trig t { a with popped := a.popped ++ [t] }, none, rest) := by
            simp [prqGo, h1, h2, h5]
          rw [heq]
          rcases happly t { a with popped := a.popped ++ [t] } with ⟨p1, p2, p3⟩
          exact ⟨fun h => p1 h, fun h => p2 h, fun _ => p3⟩
        · have heq : prqGo run trig cr fs (t :: rest) a =
              prqGo run trig cr fs rest
                (applyTask trig t { a with popped := a.popped ++ [t] }) := by
            simp [prqGo, h1, h2, h5]
          rw [heq]
          rcases happly t { a with popped := a.popped ++ [t] } with ⟨p1, p2, p3⟩
          rcases ih (applyTask trig t { a with popped := a.popped ++ [t] }) with ⟨q1, q2, q3⟩
          exact ⟨fun h => q1 (p1 h), fun h => q2 (p2 h), fun _ => q3 p3⟩
    · have heq : prqGo run trig cr fs (t :: rest) a = (a, none, t :: rest) := by
        simp [prqGo, h1]
      rw [heq]
      exact ⟨id, id, id⟩

/-- Every task `processResultQueue` pops was popped at its expected
position: its transaction number lies between the incoming and the final
`outputTxNum`. -/
theorem prqGo_popped (run : TxTask → Option String × Nat) (trig : TxTask → Nat)
    (cr fs : Bool) : ∀ (q : List TxTask) (a : PRQAcc),
    ∀ t ∈ (prqGo run trig cr fs q a).1.popped,
      t ∈ a.popped ∨ (a.outputTxNum ≤ t.txNum ∧
        t.txNum ≤ (prqGo run trig cr fs q a).1.outputTxNum) := by
  intro q
  induction q with
  | nil => intro a t ht; exact Or.inl ht
  | cons t rest ih =>
    intro a u hu
    by_cases h1 : t.txNum = a.outputTxNum
    · by_cases h2 : isConflict t
      · by_cases h3 : 0 < a.i ∧ cr = true
        · have heq : prqGo run trig cr fs (t :: rest) a =
              prqGo run trig cr fs rest
                { a with
                  popped := a.popped ++ [t], conflicts := a.conflicts + 1,
                  retried := a.retried ++ [t] } := by
            simp [prqGo, h1, h2, h3]
          have hmono := (prqGo_main run trig cr fs rest
            { a with
              popped := a.popped ++ [t], conflicts := a.conflicts + 1,
              retried := a.retried ++ [t] }).1
          have hacc : ({ a with
              popped := a.popped ++ [t], conflicts := a.conflicts + 1,
              retried := a.retried ++ [t] } : PRQAcc).outputTxNum = a.outputTxNum := rfl
          rw [hacc] at hmono
          rw [heq] at hu ⊢
          rcases ih _ u hu with h | h
          · rcases List.mem_append.1 h with h' | h'
            · exact Or.inl h'
            · have hut : u = t := by simpa using h'
              rw [hut, h1]
              exact Or.inr ⟨le_refl _, hmono⟩
          · rcases h with ⟨hl, hr⟩
            rw [hacc] at hl
            exact Or.inr ⟨hl, hr⟩
        · by_cases h4 : (runApply run t).error = none
          · by_cases h5 : fs ∧ (runApply run t).final = true
            · have heq : prqGo run trig cr fs (t :: rest) a =
                  (applyTask trig (runApply run t)
                    { a with
                      popped := a.popped ++ [t],
                      conflicts := a.conflicts + 1,
                      events := a.events ++ [Ev.reExec t.txNum], i := a.i + 1 },
                   none, rest) := by
                simp [prqGo, h1, h2, h3, h4, h5]
              rw [heq] at hu ⊢
              rcases List.mem_append.1 hu with h' | h'
              · exact Or.inl h'
              · have hut : u = t := by simpa using h'
                rw [hut, h1]
                exact Or.inr ⟨le_refl _, Nat.le_succ _⟩
            · have heq : prqGo run trig cr fs (t :: rest) a =
                  prqGo run trig cr fs rest
                    (applyTask trig (runApply run t)
                      { a with
                        popped := a.popped ++ [t],
                        conflicts := a.conflicts + 1,
                        events := a.events ++ [Ev.reExec t.txNum], i := a.i + 1 }) := by
                simp [prqGo, h1, h2, h3, h4, h5]
              have hmono := (prqGo_main run trig cr fs rest
                (applyTask trig (runApply run t)
                  { a with
                    popped := a.popped ++ [t], conflicts := a.conflicts + 1,
                    events := a.events ++ [Ev.reExec t.txNum], i := a.i + 1 })).1
              rw [applyTask_outputTxNum] at hmono
              have hacc : ({ a with
                  popped := a.popped ++ [t], conflicts := a.conflicts + 1,
                  events := a.events ++ [Ev.reExec t.txNum],
                  i := a.i + 1 } : PRQAcc).outputTxNum = a.outputTxNum := rfl
              rw [hacc] at hmono
              rw [heq] at hu ⊢
              rcases ih _ u hu with h | h
              · rcases List.mem_append.1 h with h' | h'
                · exact Or.inl h'
                · have hut : u = t := by simpa using h'
                  rw [hut]
                  exact Or.inr ⟨le_of_eq h1.symm, by omega⟩
              · rcases h with ⟨hl, hr⟩
                rw [applyTask_outputTxNum, hacc] at hl
                exact Or.inr ⟨by omega, hr⟩
          · have heq1 : (prqGo run trig cr fs (t :: rest) a).1 =
                { a with
                  popped := a.popped ++ [t], conflicts := a.conflicts + 1,
                  events := a.events ++ [Ev.reExec t.txNum],
                  stoppedAtBlockEnd := false } := by
              simp [prqGo, h1, h2, h3, h4]
            rw [heq1] at hu ⊢
            rcases List.mem_append.1 hu with h' | h'
            · exact Or.inl h'
            · have hut : u = t := by simpa using h'
              rw [hut, h1]
              exact Or.inr ⟨le_refl _, le_refl _⟩
      · by_cases h5 : fs ∧ t.final = true
        · have heq : prqGo run trig cr fs (t :: rest) a =
              (applyTask trig t { a with popped := a.popped ++ [t] }, none, rest) := by
            simp [prqGo, h1, h2, h5]
          rw [heq] at hu ⊢
          rcases List.mem_append.1 hu with h' | h'
          · exact Or.inl h'
          · have hut : u = t := by simpa using h'
            rw [hut, h1]
            exact Or.inr ⟨le_refl _, Nat.le_succ _⟩
        · have heq : prqGo run trig cr fs (t :: rest) a =
              prqGo run trig cr fs rest
                (applyTask trig t { a with popped := a.popped ++ [t] }) := by
            simp [prqGo, h1, h2, h5]
          have hmono := (prqGo_main run trig cr fs rest
            (applyTask trig t { a with popped := a.popped ++ [t] })).1
          rw [applyTask_outputTxNum] at hmono
          have hacc : ({ a with popped := a.popped ++ [t] } : PRQAcc).outputTxNum
              = a.outputTxNum := rfl
          rw [hacc] at hmono
          rw [heq] at hu ⊢
          rcases ih _ u hu with h | h
          · rcases List.mem_append.1 h with h' | h'
            · exact Or.inl h'
            · have hut : u = t := by simpa using h'
              rw [hut]
              exact Or.inr ⟨le_of_eq h1.symm, by omega⟩
          · rcases h with ⟨hl, hr⟩
            rw [applyTask_outputTxNum, hacc] at hl
            exact Or.inr ⟨by omega, hr⟩
    · have heq : prqGo run trig cr fs (t :: rest) a = (a, none, t :: rest) := by
        simp [prqGo, h1]
      rw [heq] at hu ⊢
      exact Or.inl hu

/-- When `processResultQueue` returns an error, the failing task is the
last popped one, its number is exactly the returned `outputTxNum` (not
advanced past it), its in-place re-execution produced the error, and it
was popped as a conflict. -/
theorem prqGo_error (run : TxTask → Option String × Nat) (trig : TxTask → Nat)
    (cr fs : Bool) : ∀ (q : List TxTask) (a : PRQAcc) (e : String),
    (prqGo run trig cr fs q a).2.1 = some e →
    ∃ t, (prqGo run trig cr fs q a).1.popped.getLast? = some t ∧
      t.txNum = (prqGo run trig cr fs q a).1.outputTxNum ∧
      (run t).1 = some e ∧ isConflict t = true := by
  intro q
  induction q with
  | nil => intro a e he; simp [prqGo] at he
  | cons t rest ih =>
    intro a e he
    by_cases h1 : t.txNum = a.outputTxNum
    · by_cases h2 : isConflict t
      · by_cases h3 : 0 < a.i ∧ cr = true
        · have heq : prqGo run trig cr fs (t :: rest) a =
              prqGo run trig cr fs rest
                { a with
                  popped := a.popped ++ [t], conflicts := a.conflicts + 1,
                  retried := a.retried ++ [t] } := by
            simp [prqGo, h1, h2, h3]
          rw [heq] at he ⊢
          exact ih _ e he
        · by_cases h4 : (runApply run t).error = none
          · by_cases h5 : fs ∧ (runApply run t).final = true
            · have heq : prqGo run trig cr fs (t :: rest) a =
                  (applyTask trig (runApply run t)
                    { a with
                      popped := a.popped ++ [t],
                      conflicts := a.conflicts + 1,
                      events := a.events ++ [Ev.reExec t.txNum], i := a.i + 1 },
                   none, rest) := by
                simp [prqGo, h1, h2, h3, h4, h5]
              rw [heq] at he
              simp at he
            · have heq : prqGo run trig cr fs (t :: rest) a =
                  prqGo run trig cr fs rest
                    (applyTask trig (runApply run t)
                      { a with
                        popped := a.popped ++ [t],
                        conflicts := a.conflicts + 1,
                        events := a.events ++ [Ev.reExec t.txNum], i := a.i + 1 }) := by
                simp [prqGo, h1, h2, h3, h4, h5]
              rw [heq] at he ⊢
              exact ih _ e he
          · have heq1 : (prqGo run trig cr fs (t :: rest) a).1 =
                { a with
                  popped := a.popped ++ [t], conflicts := a.conflicts + 1,
                  events := a.events ++ [Ev.reExec t.txNum],
                  stoppedAtBlockEnd := false } := by
              simp [prqGo, h1, h2, h3, h4]
            have heq2 : (prqGo run trig cr fs (t :: rest) a).2.1 =
                (runApply run t).error := by
              simp [prqGo, h1, h2, h3, h4]
            rw [heq2] at he
            refine ⟨t, ?_, ?_, ?_, h2⟩
            · rw [heq1]
              simp
            · rw [heq1]
              exact h1
            · exact he
      · by_cases h5 : fs ∧ t.final = true
        · have heq : prqGo run trig cr fs (t :: rest) a =
              (applyTask trig t { a with popped := a.popped ++ [t] }, none, rest) := by
            simp [prqGo, h1, h2, h5]
          rw [heq] at he
          simp at he
        · have heq : prqGo run trig cr fs (t :: rest) a =
              prqGo run trig cr fs rest
                (applyTask trig t { a with popped := a.popped ++ [t] }) := by
            simp [prqGo, h1, h2, h5]
          rw [heq] at he ⊢
          exact ih _ e he
    · have heq : prqGo run trig cr fs (t :: rest) a = (a, none, t :: rest) := by
        simp [prqGo, h1]
      rw [heq] at he
      simp at he


/-- C1 (counterexample): in `processResultQueue` `rs.ApplyState4` is
invoked only for `Final` tasks, so with a clean non-final task at txNum 10
followed by a final task at txNum 11 (start `outputTxNum = 10`), two tasks
are applied and the function returns 12, yet the `ApplyState4` call
sequence is `[11]`, which is not the contiguous run `[10, 11]` the claim
demands. -/
theorem C1_counterexample :
    (processResultQueue run0 trig0 true false [sampleT10, sampleT11] 10).1.outputTxNum = 12 ∧
    commitNums (processResultQueue run0 trig0 true false
      [sampleT10, sampleT11] 10).1.events = [10, 11] ∧
    applyStateNums (processResultQueue run0 trig0 true false
      [sampleT10, sampleT11] 10).1.events = [11] ∧
    ¬ applyStateNums (processResultQueue run0 trig0 true false
        [sampleT10, sampleT11] 10).1.events =
      List.range' 10 ((processResultQueue run0 trig0 true false
        [sampleT10, sampleT11] 10).1.outputTxNum - 10) := by
  refine ⟨rfl, rfl, rfl, ?_⟩
  decide

/-- C1 (amended): every run of `processResultQueue` from `outputTxNumIn`
applies tasks in a strictly increasing, contiguous transaction-number run
from `outputTxNumIn` (witnessed by the per-task `CommitTxNum` and
`ApplyLogsAndTraces` calls), returns `outputTxNumIn` plus the number of
tasks applied, pops tasks only at their expected position, and invokes
`ApplyState4` on the `Final` tasks among them — a strictly increasing
subsequence of the applied run, not the whole run. -/
theorem C1_theorem (run : TxTask → Option String × Nat) (trig : TxTask → Nat)
    (canRetry forceStop : Bool) (queue : List TxTask) (outputTxNumIn : Nat) :
    commitNums (processResultQueue run trig canRetry forceStop queue
        outputTxNumIn).1.events =
      List.range' outputTxNumIn
        ((processResultQueue run trig canRetry forceStop queue
          outputTxNumIn).1.outputTxNum - outputTxNumIn) ∧
    (processResultQueue run trig canRetry forceStop queue
        outputTxNumIn).1.outputTxNum =
      outputTxNumIn + (commitNums (processResultQueue run trig canRetry
        forceStop queue outputTxNumIn).1.events).length ∧
    (applyStateNums (processResultQueue run trig canRetry forceStop queue
        outputTxNumIn).1.events).Sublist
      (commitNums (processResultQueue run trig canRetry forceStop queue
        outputTxNumIn).1.events) ∧
    List.Pairwise (· < ·) (applyStateNums (processResultQueue run trig
      canRetry forceStop queue outputTxNumIn).1.events) ∧
    logsNums (processResultQueue run trig canRetry forceStop queue
        outputTxNumIn).1.events =
      commitNums (processResultQueue run trig canRetry forceStop queue
        outputTxNumIn).1.events ∧
    ∀ t ∈ (processResultQueue run trig canRetry forceStop queue
        outputTxNumIn).1.popped,
      outputTxNumIn ≤ t.txNum ∧ t.txNum ≤ (processResultQueue run trig
        canRetry forceStop queue outputTxNumIn).1.outputTxNum := by
  simp only [processResultQueue]
  have hmain := prqGo_main run trig canRetry forceStop queue (initAcc outputTxNumIn)
  have hinv := prqGo_inv run trig canRetry forceStop queue (initAcc outputTxNumIn)
  have hpop := prqGo_popped run trig canRetry forceStop queue (initAcc outputTxNumIn)
  rcases hmain with ⟨hle, hcm⟩
  have hinitO : (initAcc outputTxNumIn).outputTxNum = outputTxNumIn := rfl
  have hinitE : commitNums (initAcc outputTxNumIn).events = [] := rfl
  rw [hinitO] at hle
  rw [hinitE, hinitO, List.nil_append] at hcm
  have hsub := hinv.1 (by simp [initAcc, applyStateNums_nil, commitNums_nil])
  have hlogs := hinv.2.1 rfl
  refine ⟨hcm, ?_, hsub, ?_, hlogs, ?_⟩
  · rw [hcm, List.length_range']
    omega
  · refine List.Pairwise.sublist hsub ?_
    rw [hcm]
    exact List.pairwise_lt_range' _ _
  · intro t ht
    rcases hpop t ht with h | h
    · simp [initAcc] at h
    · rw [hinitO] at h
      exact ⟨h.1, h.2⟩

/-- C1 (witness): the amended theorem applied at the two-task queue. -/
theorem C1_witness :
    10 ≤ sampleT10.txNum ∧ sampleT10.txNum ≤ (processResultQueue run0 trig0
      true false [sampleT10, sampleT11] 10).1.outputTxNum :=
  (C1_theorem run0 trig0 true false [sampleT10, sampleT11] 10).2.2.2.2.2
    sampleT10 (by decide)

/-- C2: a popped task is a conflict exactly when its error output is
non-nil or its read set fails validation; a conflict met when no in-place
re-execution happened yet in this drain batch (or when retry is
disallowed) is re-executed in place by the apply worker and, if that
succeeds, applied; every further conflict, when retry is allowed, is
pushed back into the retry lane and skipped. -/
theorem C2_theorem (run : TxTask → Option String × Nat) (trig : TxTask → Nat)
    (canRetry forceStop : Bool) (t : TxTask) (rest : List TxTask) (a : PRQAcc)
    (hpop : t.txNum = a.outputTxNum) :
    (isConflict t = true ↔ (t.error ≠ none ∨ t.readsValid = false)) ∧
    (isConflict t = false →
      prqGo run trig canRetry forceStop (t :: rest) a =
        (if forceStop ∧ t.final = true then
          (applyTask trig t { a with popped := a.popped ++ [t] }, none, rest)
         else prqGo run trig canRetry forceStop rest
          (applyTask trig t { a with popped := a.popped ++ [t] }))) ∧
    (isConflict t = true → (a.i = 0 ∨ canRetry = false) →
      (run t).1 = none →
      prqGo run trig canRetry forceStop (t :: rest) a =
        (if forceStop ∧ (runApply run t).final = true then
          (applyTask trig (runApply run t)
            { a with
              popped := a.popped ++ [t], conflicts := a.conflicts + 1,
              events := a.events ++ [Ev.reExec t.txNum], i := a.i + 1 },
           none, rest)
         else prqGo run trig canRetry forceStop rest
          (applyTask trig (runApply run t)
            { a with
              popped := a.popped ++ [t], conflicts := a.conflicts + 1,
              events := a.events ++ [Ev.reExec t.txNum], i := a.i + 1 }))) ∧
    (isConflict t = true → 0 < a.i → canRetry = true →
      prqGo run trig canRetry forceStop (t :: rest) a =
        prqGo run trig canRetry forceStop rest
          { a with
            popped := a.popped ++ [t], conflicts := a.conflicts + 1,
            retried := a.retried ++ [t] }) := by
  refine ⟨?_, ?_, ?_, ?_⟩
  · cases herr : t.error <;> cases hr : t.readsValid <;>
      simp [isConflict, herr, hr]
  · intro h2
    by_cases h5 : forceStop ∧ t.final = true <;>
      simp [prqGo, hpop, h2, h5]
  · intro h2 h3 h4
    have h3' : ¬(0 < a.i ∧ canRetry = true) := by
      rcases h3 with h | h
      · simp [h]
      · simp [h]
    have h4' : (runApply run t).error = none := h4
    by_cases h5 : forceStop ∧ (runApply run t).final = true <;>
      simp [prqGo, hpop, h2, h3', h4', h5]
  · intro h2 h3 h4
    have h3' : 0 < a.i ∧ canRetry = true := ⟨h3, h4⟩
    simp [prqGo, hpop, h2, h3']

/-- C2 (witness): a second conflict of a batch (`i = 1`, retry allowed) is
pushed back into the retry lane. -/
theorem C2_witness :
    prqGo run0 trig0 true false [sampleConflict] sampleAccI1 =
      prqGo run0 trig0 true false []
        { sampleAccI1 with
          popped := sampleAccI1.popped ++ [sampleConflict],
          conflicts := sampleAccI1.conflicts + 1,
          retried := sampleAccI1.retried ++ [sampleConflict] } :=
  (C2_theorem run0 trig0 true false sampleConflict [] sampleAccI1
    (by decide)).2.2.2 (by decide) (by decide) rfl

theorem emitFrom_map_txIndex (b : Block) : ∀ (idxs : List Int) (n : Nat),
    (emitFrom b n idxs).map (fun t => t.txIndex) = idxs := by
  intro idxs
  induction idxs with
  | nil => intro n; rfl
  | cons i rest ih => intro n; simp [emitFrom, mkTask, ih]

theorem emitFrom_map_txNum (b : Block) : ∀ (idxs : List Int) (n : Nat),
    (emitFrom b n idxs).map (fun t => t.txNum) = List.range' n idxs.length := by
  intro idxs
  induction idxs with
  | nil => intro n; rfl
  | cons i rest ih =>
    intro n
    simp [emitFrom, mkTask, ih, List.range'_succ]

theorem emitFrom_length (b : Block) : ∀ (idxs : List Int) (n : Nat),
    (emitFrom b n idxs).length = idxs.length := by
  intro idxs
  induction idxs with
  | nil => intro n; rfl
  | cons i rest ih => intro n; simp [emitFrom, ih]

theorem emitFrom_mem (b : Block) : ∀ (idxs : List Int) (n : Nat),
    ∀ t ∈ emitFrom b n idxs,
      (t.final = true ↔ t.txIndex = (b.txCount : Int)) ∧
      t.blockNum = b.blockNum ∧ t.error = none := by
  intro idxs
  induction idxs with
  | nil => intro n t ht; simp [emitFrom] at ht
  | cons i rest ih =>
    intro n t ht
    rw [emitFrom] at ht
    rcases List.mem_cons.1 ht with h | h
    · subst h
      refine ⟨?_, rfl, rfl⟩
      simp [mkTask]
    · exact ih (n + 1) t h

theorem blockTaskIdxs_length (txCount : Nat) :
    (blockTaskIdxs txCount).length = txCount + 2 := by
  rw [blockTaskIdxs, List.length_map, List.length_range]

theorem blockTasks_length (b : Block) (n : Nat) :
    (blockTasks b n).length = b.txCount + 2 := by
  rw [blockTasks, emitFrom_length, blockTaskIdxs_length]

theorem driverTasks_map_txNum : ∀ (bs : List Block) (n : Nat),
    (driverTasks n bs).map (fun t => t.txNum) =
      List.range' n (driverTasks n bs).length := by
  intro bs
  induction bs with
  | nil => intro n; rfl
  | cons b rest ih =>
    intro n
    have hlen : (driverTasks n (b :: rest)).length =
        (b.txCount + 2) + (driverTasks (n + (b.txCount + 2)) rest).length := by
      simp [driverTasks, blockTasks_length]
    rw [hlen]
    have : driverTasks n (b :: rest) =
        blockTasks b n ++ driverTasks (n + (b.txCount + 2)) rest := rfl
    rw [this, List.map_append, ih]
    rw [blockTasks, emitFrom_map_txNum, blockTaskIdxs_length]
    have happ := List.range'_append n (b.txCount + 2)
      ((driverTasks (n + (b.txCount + 2)) rest).length) 1
    simp only [one_mul] at happ
    rw [happ, Nat.add_comm]

/-- C6: for every block, the driver emits tasks for `txIndex = -1`, then
`0 .. len(txs)-1`, then `txIndex = len(txs)`, with `Final` set exactly on
the post-block task; transaction numbers are handed out one greater than
the previous across the whole block list, so they are dense and in strict
block-then-index order. -/
theorem C6_theorem (b : Block) (bs : List Block) (startTxNum : Nat) :
    (blockTasks b startTxNum).map (fun t => t.txIndex) =
      (List.range (b.txCount + 2)).map (fun j => Int.ofNat j - 1) ∧
    (blockTasks b startTxNum).length = b.txCount + 2 ∧
    (∀ t ∈ blockTasks b startTxNum,
      (t.final = true ↔ t.txIndex = (b.txCount : Int)) ∧
      t.blockNum = b.blockNum) ∧
    driverTasks startTxNum (b :: bs) =
      blockTasks b startTxNum ++
        driverTasks (startTxNum + (b.txCount + 2)) bs ∧
    (driverTasks startTxNum (b :: bs)).map (fun t => t.txNum) =
      List.range' startTxNum (driverTasks startTxNum (b :: bs)).length := by
  refine ⟨?_, blockTasks_length b startTxNum, ?_, rfl,
    driverTasks_map_txNum (b :: bs) startTxNum⟩
  · rw [blockTasks, emitFrom_map_txIndex]
    rfl
  · intro t ht
    rcases emitFrom_mem b (blockTaskIdxs b.txCount) startTxNum t ht with ⟨h1, h2, _⟩
    exact ⟨h1, h2⟩

/-- C6 (witness): the theorem applied to a concrete one-transaction
block and its post-block task. -/
theorem C6_witness :
    ((mkTask demoGasBlock 2 1).final = true ↔
      (mkTask demoGasBlock 2 1).txIndex = (demoGasBlock.txCount : Int)) ∧
    (mkTask demoGasBlock 2 1).blockNum = demoGasBlock.blockNum :=
  (C6_theorem demoGasBlock [] 0).2.2.1 (mkTask demoGasBlock 2 1) (by decide)

/-- Unfolded form of `seqTask`: the pre-execution `txTask.Error` check
never fires (driver-built tasks carry no error), so the step is decided by
`seqTaskErr` on the executed task. -/
theorem seqTask_eq (cfg : SeqCfg) (run : TxTask → Option String × Nat)
    (b : Block) (s : SeqState) (idx : Int) :
    seqTask cfg run b s idx =
      (match seqTaskErr b
          (s.gasUsed + (runApply run (mkTask b s.inputTxNum idx)).usedGas)
          (runApply run (mkTask b s.inputTxNum idx)) with
      | some msg =>
          if cfg.badBlockHalt then
            SeqRes.failStage { s with
              events := s.events ++ [SEv.taskError s.inputTxNum] ++
                (if cfg.hdPresent then
                  [SEv.reportBadHeader b.headerHash b.parentHash] else []) } msg
          else
            SeqRes.brk { s with
              events := (s.events ++ [SEv.taskError s.inputTxNum] ++
                (if cfg.hdPresent then
                  [SEv.reportBadHeader b.headerHash b.parentHash] else [])) ++
                [SEv.unwindTo (b.blockNum - 1) b.headerHash] }
      | none =>
          SeqRes.ok { s with
            gasUsed := if (runApply run (mkTask b s.inputTxNum idx)).final then 0
              else s.gasUsed + (runApply run (mkTask b s.inputTxNum idx)).usedGas,
            events := s.events ++ [SEv.applyState4 s.inputTxNum,
              SEv.applyLogsAndTraces s.inputTxNum, SEv.commitTxNum s.inputTxNum],
            outputTxNum := s.outputTxNum + 1,
            stageProgress := b.blockNum,
            inputTxNum := s.inputTxNum + 1 }) := by
  have herr : (mkTask b s.inputTxNum idx).error = none := rfl
  simp only [seqTask, herr, ne_eq, not_true_eq_false, if_neg, ite_false,
    not_false_eq_true, reduceIte]
  have hfin : (runApply run (mkTask b s.inputTxNum idx)).final =
      (mkTask b s.inputTxNum idx).final := rfl
  have htx : (mkTask b s.inputTxNum idx).txNum = s.inputTxNum := rfl
  cases hcase : seqTaskErr b
      (s.gasUsed + (runApply run (mkTask b s.inputTxNum idx)).usedGas)
      (runApply run (mkTask b s.inputTxNum idx)) with
  | none => simp [hcase, hfin, htx]
  | some msg => simp [hcase, htx]

/-- Invariant step of the sequential inline task loop. -/
theorem seqTask_master (cfg : SeqCfg) (run : TxTask → Option String × Nat)
    (b : Block) (s : SeqState) (idx : Int)
    (hio : s.inputTxNum = s.outputTxNum)
    (hp : seqNoPromoteAfter s) (hne : seqNoErr s) :
    (∀ s', seqTask cfg run b s idx = SeqRes.ok s' →
      s'.inputTxNum = s'.outputTxNum ∧ s'.outputTxNum = s.outputTxNum + 1 ∧
      seqNoPromoteAfter s' ∧ seqNoErr s' ∧
      (∀ n, SEv.commitTxPeriodic n ∈ s'.events → SEv.commitTxPeriodic n ∈ s.events) ∧
      (∀ n, SEv.commitTxFinal n ∈ s'.events → SEv.commitTxFinal n ∈ s.events)) ∧
    (∀ s' msg, seqTask cfg run b s idx = SeqRes.failStage s' msg →
      s'.outputTxNum = s.outputTxNum ∧ seqNoPromoteAfter s' ∧ seqErrStopped s' ∧
      (∀ n, SEv.commitTxPeriodic n ∈ s'.events → SEv.commitTxPeriodic n ∈ s.events) ∧
      (∀ n, SEv.commitTxFinal n ∈ s'.events → SEv.commitTxFinal n ∈ s.events)) ∧
    (∀ s', seqTask cfg run b s idx = SeqRes.brk s' →
      s'.outputTxNum = s.outputTxNum ∧ seqNoPromoteAfter s' ∧ seqErrStopped s' ∧
      (∀ n, SEv.commitTxPeriodic n ∈ s'.events → SEv.commitTxPeriodic n ∈ s.events) ∧
      (∀ n, SEv.commitTxFinal n ∈ s'.events → SEv.commitTxFinal n ∈ s.events)) := by
  rw [seqTask_eq]
  cases hcase : seqTaskErr b
      (s.gasUsed + (runApply run (mkTask b s.inputTxNum idx)).usedGas)
      (runApply run (mkTask b s.inputTxNum idx)) with
  | none =>
    refine ⟨?_, ?_, ?_⟩
    · intro s' h
      simp only [hcase] at h
      cases h
      have hA : ∀ n : Nat, SEv.applyState4 n ∈ s.events ++
          [SEv.applyState4 s.inputTxNum, SEv.applyLogsAndTraces s.inputTxNum,
            SEv.commitTxNum s.inputTxNum] ↔
          (SEv.applyState4 n ∈ s.events ∨ n = s.inputTxNum) := by
        intro n; simp
      have hL : ∀ n : Nat, SEv.applyLogsAndTraces n ∈ s.events ++
          [SEv.applyState4 s.inputTxNum, SEv.applyLogsAndTraces s.inputTxNum,
            SEv.commitTxNum s.inputTxNum] ↔
          (SEv.applyLogsAndTraces n ∈ s.events ∨ n = s.inputTxNum) := by
        intro n; simp
      have hC : ∀ n : Nat, SEv.commitTxNum n ∈ s.events ++
          [SEv.applyState4 s.inputTxNum, SEv.applyLogsAndTraces s.inputTxNum,
            SEv.commitTxNum s.inputTxNum] ↔
          (SEv.commitTxNum n ∈ s.events ∨ n = s.inputTxNum) := by
        intro n; simp
      have hT : ∀ n : Nat, SEv.taskError n ∈ s.events ++
          [SEv.applyState4 s.inputTxNum, SEv.applyLogsAndTraces s.inputTxNum,
            SEv.commitTxNum s.inputTxNum] ↔ SEv.taskError n ∈ s.events := by
        intro n; simp
      have hPe : ∀ n : Nat, SEv.commitTxPeriodic n ∈ s.events ++
          [SEv.applyState4 s.inputTxNum, SEv.applyLogsAndTraces s.inputTxNum,
            SEv.commitTxNum s.inputTxNum] ↔ SEv.commitTxPeriodic n ∈ s.events := by
        intro n; simp
      have hF : ∀ n : Nat, SEv.commitTxFinal n ∈ s.events ++
          [SEv.applyState4 s.inputTxNum, SEv.applyLogsAndTraces s.inputTxNum,
            SEv.commitTxNum s.inputTxNum] ↔ SEv.commitTxFinal n ∈ s.events := by
        intro n; simp
      refine ⟨by simp [hio], rfl, ?_, ?_, ?_, ?_⟩
      · intro n hn
        show n < s.outputTxNum + 1
        rcases hn with h | h | h
        · rcases (hA n).1 h with h' | h'
          · exact lt_trans (hp n (Or.inl h')) (Nat.lt_succ_self _)
          · subst h'; rw [hio]; exact Nat.lt_succ_self _
        · rcases (hL n).1 h with h' | h'
          · exact lt_trans (hp n (Or.inr (Or.inl h'))) (Nat.lt_succ_self _)
          · subst h'; rw [hio]; exact Nat.lt_succ_self _
        · rcases (hC n).1 h with h' | h'
          · exact lt_trans (hp n (Or.inr (Or.inr h'))) (Nat.lt_succ_self _)
          · subst h'; rw [hio]; exact Nat.lt_succ_self _
      · intro n hn
        exact hne n ((hT n).1 hn)
      · intro n hn
        exact (hPe n).1 hn
      · intro n hn
        exact (hF n).1 hn
    · intro s' msg h
      simp only [hcase] at h
      cases h
    · intro s' h
      simp only [hcase] at h
      split at h <;> cases h
  | some msg =>
    have hA : ∀ n : Nat, SEv.applyState4 n ∈ s.events ++ [SEv.taskError s.inputTxNum] ++
        (if cfg.hdPresent then [SEv.reportBadHeader b.headerHash b.parentHash] else []) ↔
        SEv.applyState4 n ∈ s.events := by
      intro n; cases hhd : cfg.hdPresent <;> simp [hhd]
    have hL : ∀ n : Nat, SEv.applyLogsAndTraces n ∈ s.events ++ [SEv.taskError s.inputTxNum] ++
        (if cfg.hdPresent then [SEv.reportBadHeader b.headerHash b.parentHash] else []) ↔
        SEv.applyLogsAndTraces n ∈ s.events := by
      intro n; cases hhd : cfg.hdPresent <;> simp [hhd]
    have hC : ∀ n : Nat, SEv.commitTxNum n ∈ s.events ++ [SEv.taskError s.inputTxNum] ++
        (if cfg.hdPresent then [SEv.reportBadHeader b.headerHash b.parentHash] else []) ↔
        SEv.commitTxNum n ∈ s.events := by
      intro n; cases hhd : cfg.hdPresent <;> simp [hhd]
    have hT : ∀ n : Nat, SEv.taskError n ∈ s.events ++ [SEv.taskError s.inputTxNum] ++
        (if cfg.hdPresent then [SEv.reportBadHeader b.headerHash b.parentHash] else []) ↔
        (SEv.taskError n ∈ s.events ∨ n = s.inputTxNum) := by
      intro n; cases hhd : cfg.hdPresent <;> simp [hhd]
    have hPe : ∀ n : Nat, SEv.commitTxPeriodic n ∈ s.events ++ [SEv.taskError s.inputTxNum] ++
        (if cfg.hdPresent then [SEv.reportBadHeader b.headerHash b.parentHash] else []) ↔
        SEv.commitTxPeriodic n ∈ s.events := by
      intro n; cases hhd : cfg.hdPresent <;> simp [hhd]
    have hF : ∀ n : Nat, SEv.commitTxFinal n ∈ s.events ++ [SEv.taskError s.inputTxNum] ++
        (if cfg.hdPresent then [SEv.reportBadHeader b.headerHash b.parentHash] else []) ↔
        SEv.commitTxFinal n ∈ s.events := by
      intro n; cases hhd : cfg.hdPresent <;> simp [hhd]
    refine ⟨?_, ?_, ?_⟩
    · intro s' h
      simp only [hcase] at h
      split at h <;> cases h
    · intro s' m h
      simp only [hcase] at h
      split at h
      · cases h
        refine ⟨rfl, ?_, ?_, ?_, ?_⟩
        · intro n hn
          show n < s.outputTxNum
          rcases hn with h | h | h
          · exact hp n (Or.inl ((hA n).1 h))
          · exact hp n (Or.inr (Or.inl ((hL n).1 h)))
          · exact hp n (Or.inr (Or.inr ((hC n).1 h)))
        · intro n hn
          show s.outputTxNum ≤ n
          rcases (hT n).1 hn with h | h
          · exact absurd h (hne n)
          · rw [h, ← hio]
        · intro n hn
          exact (hPe n).1 hn
        · intro n hn
          exact (hF n).1 hn
      · cases h
    · intro s' h
      simp only [hcase] at h
      split at h
      · cases h
      · cases h
        have hA2 : ∀ n : Nat, SEv.applyState4 n ∈
            (s.events ++ [SEv.taskError s.inputTxNum] ++
              (if cfg.hdPresent then [SEv.reportBadHeader b.headerHash b.parentHash] else [])) ++
              [SEv.unwindTo (b.blockNum - 1) b.headerHash] ↔
            SEv.applyState4 n ∈ s.events := by
          intro n
          rw [List.mem_append]
          constructor
          · intro hh
            rcases hh with hh | hh
            · exact (hA n).1 hh
            · simp at hh
          · intro hh
            exact Or.inl ((hA n).2 hh)
        have hL2 : ∀ n : Nat, SEv.applyLogsAndTraces n ∈
            (s.events ++ [SEv.taskError s.inputTxNum] ++
              (if cfg.hdPresent then [SEv.reportBadHeader b.headerHash b.parentHash] else [])) ++
              [SEv.unwindTo (b.blockNum - 1) b.headerHash] ↔
            SEv.applyLogsAndTraces n ∈ s.events := by
          intro n
          rw [List.mem_append]
          constructor
          · intro hh
            rcases hh with hh | hh
            · exact (hL n).1 hh
            · simp at hh
          · intro hh
            exact Or.inl ((hL n).2 hh)
        have hC2 : ∀ n : Nat, SEv.commitTxNum n ∈
            (s.events ++ [SEv.taskError s.inputTxNum] ++
              (if cfg.hdPresent then [SEv.reportBadHeader b.headerHash b.parentHash] else [])) ++
              [SEv.unwindTo (b.blockNum - 1) b.headerHash] ↔
            SEv.commitTxNum n ∈ s.events := by
          intro n
          rw [List.mem_append]
          constructor
          · intro hh
            rcases hh with hh | hh
            · exact (hC n).1 hh
            · simp at hh
          · intro hh
            exact Or.inl ((hC n).2 hh)
        have hT2 : ∀ n : Nat, SEv.taskError n ∈
            (s.events ++ [SEv.taskError s.inputTxNum] ++
              (if cfg.hdPresent then [SEv.reportBadHeader b.headerHash b.parentHash] else [])) ++
              [SEv.unwindTo (b.blockNum - 1) b.headerHash] ↔
            (SEv.taskError n ∈ s.events ∨ n = s.inputTxNum) := by
          intro n
          rw [List.mem_append]
          constructor
          · intro hh
            rcases hh with hh | hh
            · exact (hT n).1 hh
            · simp at hh
          · intro hh
            exact Or.inl ((hT n).2 hh)
        have hPe2 : ∀ n : Nat, SEv.commitTxPeriodic n ∈
            (s.events ++ [SEv.taskError s.inputTxNum] ++
              (if cfg.hdPresent then [SEv.reportBadHeader b.headerHash b.parentHash] else [])) ++
              [SEv.unwindTo (b.blockNum - 1) b.headerHash] ↔
            SEv.commitTxPeriodic n ∈ s.events := by
          intro n
          rw [List.mem_append]
          constructor
          · intro hh
            rcases hh with hh | hh
            · exact (hPe n).1 hh
            · simp at hh
          · intro hh
            exact Or.inl ((hPe n).2 hh)
        have hF2 : ∀ n : Nat, SEv.commitTxFinal n ∈
            (s.events ++ [SEv.taskError s.inputTxNum] ++
              (if cfg.hdPresent then [SEv.reportBadHeader b.headerHash b.parentHash] else [])) ++
              [SEv.unwindTo (b.blockNum - 1) b.headerHash] ↔
            SEv.commitTxFinal n ∈ s.events := by
          intro n
          rw [List.mem_append]
          constructor
          · intro hh
            rcases hh with hh | hh
            · exact (hF n).1 hh
            · simp at hh
          · intro hh
            exact Or.inl ((hF n).2 hh)
        refine ⟨rfl, ?_, ?_, ?_, ?_⟩
        · intro n hn
          show n < s.outputTxNum
          rcases hn with h | h | h
          · exact hp n (Or.inl ((hA2 n).1 h))
          · exact hp n (Or.inr (Or.inl ((hL2 n).1 h)))
          · exact hp n (Or.inr (Or.inr ((hC2 n).1 h)))
        · intro n hn
          show s.outputTxNum ≤ n
          rcases (hT2 n).1 hn with h | h
          · exact absurd h (hne n)
          · rw [h, ← hio]
        · intro n hn
          exact (hPe2 n).1 hn
        · intro n hn
          exact (hF2 n).1 hn

theorem noErr_errStopped (s : SeqState) (h : seqNoErr s) : seqErrStopped s :=
  fun n hn => absurd hn (h n)

/-- Appending promotion-free, error-free events preserves the sequential
invariants. -/
theorem seqPres_append (s s' : SeqState) (chunk : List SEv)
    (hev : s'.events = s.events ++ chunk)
    (hout : s'.outputTxNum = s.outputTxNum)
    (hchunk : ∀ x ∈ chunk, ∀ n : Nat, x ≠ SEv.applyState4 n ∧
      x ≠ SEv.applyLogsAndTraces n ∧ x ≠ SEv.commitTxNum n ∧
      x ≠ SEv.taskError n ∧ x ≠ SEv.commitTxPeriodic n ∧ x ≠ SEv.commitTxFinal n) :
    (seqNoPromoteAfter s → seqNoPromoteAfter s') ∧
    (seqNoErr s → seqNoErr s') ∧
    (∀ n, SEv.commitTxPeriodic n ∈ s'.events → SEv.commitTxPeriodic n ∈ s.events) ∧
    (∀ n, SEv.commitTxFinal n ∈ s'.events → SEv.commitTxFinal n ∈ s.events) := by
  refine ⟨?_, ?_, ?_, ?_⟩
  · intro hp n hn
    rw [hout]
    rcases hn with h | h | h
    · rw [hev] at h
      rcases List.mem_append.1 h with h' | h'
      · exact hp n (Or.inl h')
      · exact absurd rfl ((hchunk _ h' n).1)
    · rw [hev] at h
      rcases List.mem_append.1 h with h' | h'
      · exact hp n (Or.inr (Or.inl h'))
      · exact absurd rfl ((hchunk _ h' n).2.1)
    · rw [hev] at h
      rcases List.mem_append.1 h with h' | h'
      · exact hp n (Or.inr (Or.inr h'))
      · exact absurd rfl ((hchunk _ h' n).2.2.1)
  · intro hne n hn
    rw [hev] at hn
    rcases List.mem_append.1 hn with h' | h'
    · exact hne n h'
    · exact absurd rfl ((hchunk _ h' n).2.2.2.1)
  · intro n hn
    rw [hev] at hn
    rcases List.mem_append.1 hn with h' | h'
    · exact h'
    · exact absurd rfl ((hchunk _ h' n).2.2.2.2.1)
  · intro n hn
    rw [hev] at hn
    rcases List.mem_append.1 hn with h' | h'
    · exact h'
    · exact absurd rfl ((hchunk _ h' n).2.2.2.2.2)

/-- The root check only appends commitment/flush/report/unwind events and
never touches the counters. -/
theorem rootCheck_facts (cfg : SeqCfg) (commitment : Nat → Nat) (b : Block)
    (s : SeqState) :
    ∀ r, rootCheck cfg commitment b s = r →
      r.state.outputTxNum = s.outputTxNum ∧
      r.state.inputTxNum = s.inputTxNum ∧
      (seqNoPromoteAfter s → seqNoPromoteAfter r.state) ∧
      (seqNoErr s → seqNoErr r.state) ∧
      (∀ n, SEv.commitTxPeriodic n ∈ r.state.events →
        SEv.commitTxPeriodic n ∈ s.events) ∧
      (∀ n, SEv.commitTxFinal n ∈ r.state.events →
        SEv.commitTxFinal n ∈ s.events) := by
  intro r hr
  have hchunkOK : ∀ (c : List SEv), (∀ x ∈ c,
      (∃ m, x = SEv.computeCommitment m) ∨ x = SEv.aggFlush ∨
      (∃ p q, x = SEv.reportBadHeader p q) ∨ (∃ p q, x = SEv.unwindTo p q)) →
      ∀ x ∈ c, ∀ n : Nat, x ≠ SEv.applyState4 n ∧
        x ≠ SEv.applyLogsAndTraces n ∧ x ≠ SEv.commitTxNum n ∧
        x ≠ SEv.taskError n ∧ x ≠ SEv.commitTxPeriodic n ∧ x ≠ SEv.commitTxFinal n := by
    intro c hc x hx n
    rcases hc x hx with ⟨m, h⟩ | h | ⟨p, q, h⟩ | ⟨p, q, h⟩ <;> subst h <;>
      exact ⟨by simp, by simp, by simp, by simp, by simp, by simp⟩
  have key : r.state.events = s.events ∨ ∃ chunk, r.state.events = s.events ++ chunk ∧
      (∀ x ∈ chunk, (∃ m, x = SEv.computeCommitment m) ∨ x = SEv.aggFlush ∨
        (∃ p q, x = SEv.reportBadHeader p q) ∨ (∃ p q, x = SEv.unwindTo p q)) := by
    rw [rootCheck] at hr
    by_cases hd : cfg.discardCommitment
    · rw [if_pos hd] at hr
      subst hr
      exact Or.inl rfl
    · rw [if_neg hd] at hr
      by_cases hroot : commitment b.blockNum = b.headerRoot
      · rw [if_pos hroot] at hr
        subst hr
        refine Or.inr ⟨[SEv.computeCommitment b.blockNum], rfl, ?_⟩
        intro x hx
        have h := List.mem_singleton.1 hx
        exact Or.inl ⟨b.blockNum, h⟩
      · rw [if_neg hroot] at hr
        by_cases hb : cfg.badBlockHalt
        · rw [if_pos hb] at hr
          subst hr
          refine Or.inr ⟨[SEv.computeCommitment b.blockNum], rfl, ?_⟩
          intro x hx
          have h := List.mem_singleton.1 hx
          exact Or.inl ⟨b.blockNum, h⟩
        · rw [if_neg hb] at hr
          subst hr
          refine Or.inr ⟨[SEv.computeCommitment b.blockNum] ++ ([SEv.aggFlush] ++
            ((if cfg.hdPresent then
              [SEv.reportBadHeader b.headerHash b.parentHash] else []) ++
             (if cfg.stageStartBlock < cfg.maxBlockNum then
              [SEv.unwindTo ((cfg.maxBlockNum + cfg.stageStartBlock) / 2) b.headerHash]
             else []))), by simp [SeqRes.state], ?_⟩
          intro x hx
          rcases List.mem_append.1 hx with h | h
          · exact Or.inl ⟨b.blockNum, List.mem_singleton.1 h⟩
          · rcases List.mem_append.1 h with h | h
            · exact Or.inr (Or.inl (List.mem_singleton.1 h))
            · rcases List.mem_append.1 h with h | h
              · by_cases hhd : cfg.hdPresent
                · rw [if_pos hhd] at h
                  exact Or.inr (Or.inr (Or.inl ⟨_, _, List.mem_singleton.1 h⟩))
                · rw [if_neg hhd] at h
                  simp at h
              · by_cases hlt : cfg.stageStartBlock < cfg.maxBlockNum
                · rw [if_pos hlt] at h
                  exact Or.inr (Or.inr (Or.inr ⟨_, _, List.mem_singleton.1 h⟩))
                · rw [if_neg hlt] at h
                  simp at h
  have houts : r.state.outputTxNum = s.outputTxNum ∧ r.state.inputTxNum = s.inputTxNum := by
    rw [rootCheck] at hr
    by_cases hd : cfg.discardCommitment
    · rw [if_pos hd] at hr; subst hr; exact ⟨rfl, rfl⟩
    · rw [if_neg hd] at hr
      by_cases hroot : commitment b.blockNum = b.headerRoot
      · rw [if_pos hroot] at hr; subst hr; exact ⟨rfl, rfl⟩
      · rw [if_neg hroot] at hr
        by_cases hb : cfg.badBlockHalt
        · rw [if_pos hb] at hr; subst hr; exact ⟨rfl, rfl⟩
        · rw [if_neg hb] at hr; subst hr; exact ⟨rfl, rfl⟩
  rcases key with hsame | ⟨chunk, hev, hks⟩
  · refine ⟨houts.1, houts.2, ?_, ?_, ?_, ?_⟩
    · intro hp n hn
      rw [houts.1]
      rw [hsame] at hn
      exact hp n hn
    · intro hne n hn
      rw [hsame] at hn
      exact hne n hn
    · intro n hn
      rw [hsame] at hn
      exact hn
    · intro n hn
      rw [hsame] at hn
      exact hn
  · have := seqPres_append s r.state chunk hev houts.1 (hchunkOK chunk hks)
    exact ⟨houts.1, houts.2, this.1, this.2.1, this.2.2.1, this.2.2.2⟩

/-- The periodic commit appends commit-block events; a `commitTxPeriodic`
event it adds carries the current `outputTxNum`. -/
theorem periodicCommit_facts (cfg : SeqCfg) (doCommit : Nat → Bool) (b : Block)
    (s : SeqState) :
    (periodicCommit cfg doCommit b s).outputTxNum = s.outputTxNum ∧
    (periodicCommit cfg doCommit b s).inputTxNum = s.inputTxNum ∧
    (seqNoPromoteAfter s → seqNoPromoteAfter (periodicCommit cfg doCommit b s)) ∧
    (seqNoErr s → seqNoErr (periodicCommit cfg doCommit b s)) ∧
    (∀ n, SEv.commitTxPeriodic n ∈ (periodicCommit cfg doCommit b s).events →
      SEv.commitTxPeriodic n ∈ s.events ∨ n = s.outputTxNum) ∧
    (∀ n, SEv.commitTxFinal n ∈ (periodicCommit cfg doCommit b s).events →
      SEv.commitTxFinal n ∈ s.events) := by
  rw [periodicCommit]
  by_cases hdo : doCommit b.blockNum
  · rw [if_pos hdo]
    by_cases hext : cfg.useExternalTx
    · rw [if_pos hext]
      refine ⟨rfl, rfl, ?_, ?_, ?_, ?_⟩
      · intro hp n hn
        rcases hn with h | h | h <;> (simp at h; exact hp n (by tauto))
      · intro hne n hn
        simp at hn
        exact hne n hn
      · intro n hn
        simp at hn
        exact Or.inl hn
      · intro n hn
        simp at hn
        exact hn
    · rw [if_neg hext]
      refine ⟨rfl, rfl, ?_, ?_, ?_, ?_⟩
      · intro hp n hn
        rcases hn with h | h | h <;> (simp at h; exact hp n (by tauto))
      · intro hne n hn
        simp at hn
        exact hne n hn
      · intro n hn
        simp at hn
        rcases hn with h | h
        · exact Or.inl h
        · exact Or.inr h
      · intro n hn
        simp at hn
        exact hn
  · rw [if_neg hdo]
    exact ⟨rfl, rfl, fun h => h, fun h => h, fun n hn => Or.inl hn, fun n hn => hn⟩

/-- Invariants of the whole per-block task loop. -/
theorem seqTasks_master (cfg : SeqCfg) (run : TxTask → Option String × Nat)
    (b : Block) : ∀ (idxs : List Int) (s : SeqState),
    s.inputTxNum = s.outputTxNum → seqNoPromoteAfter s → seqNoErr s →
    (∀ s', seqTasks cfg run b idxs s = SeqRes.ok s' →
      s'.inputTxNum = s'.outputTxNum ∧
      s'.outputTxNum = s.outputTxNum + idxs.length ∧
      seqNoPromoteAfter s' ∧ seqNoErr s' ∧
      (∀ n, SEv.commitTxPeriodic n ∈ s'.events → SEv.commitTxPeriodic n ∈ s.events) ∧
      (∀ n, SEv.commitTxFinal n ∈ s'.events → SEv.commitTxFinal n ∈ s.events)) ∧
    (∀ s' msg, seqTasks cfg run b idxs s = SeqRes.failStage s' msg →
      seqNoPromoteAfter s' ∧ seqErrStopped s' ∧
      (∀ n, SEv.commitTxPeriodic n ∈ s'.events → SEv.commitTxPeriodic n ∈ s.events) ∧
      (∀ n, SEv.commitTxFinal n ∈ s'.events → SEv.commitTxFinal n ∈ s.events)) ∧
    (∀ s', seqTasks cfg run b idxs s = SeqRes.brk s' →
      seqNoPromoteAfter s' ∧ seqErrStopped s' ∧
      (∀ n, SEv.commitTxPeriodic n ∈ s'.events → SEv.commitTxPeriodic n ∈ s.events) ∧
      (∀ n, SEv.commitTxFinal n ∈ s'.events → SEv.commitTxFinal n ∈ s.events)) := by
  intro idxs
  induction idxs with
  | nil =>
    intro s hio hp hne
    refine ⟨?_, ?_, ?_⟩
    · intro s' h
      cases h
      exact ⟨hio, rfl, hp, hne, fun n hn => hn, fun n hn => hn⟩
    · intro s' msg h
      cases h
    · intro s' h
      cases h
  | cons idx rest ih =>
    intro s hio hp hne
    rcases seqTask_master cfg run b s idx hio hp hne with ⟨mok, mfail, mbrk⟩
    cases htask : seqTask cfg run b s idx with
    | ok s1 =>
      rcases mok s1 htask with ⟨k1, k2, k3, k4, k5, k6⟩
      rcases ih s1 k1 k3 k4 with ⟨iok, ifail, ibrk⟩
      refine ⟨?_, ?_, ?_⟩
      · intro s' h
        rw [seqTasks, htask] at h
        rcases iok s' h with ⟨j1, j2, j3, j4, j5, j6⟩
        refine ⟨j1, ?_, j3, j4, fun n hn => k5 n (j5 n hn),
          fun n hn => k6 n (j6 n hn)⟩
        rw [j2, k2]
        simp [Nat.add_assoc, Nat.add_comm 1 rest.length]
      · intro s' msg h
        rw [seqTasks, htask] at h
        rcases ifail s' msg h with ⟨j1, j2, j3, j4⟩
        exact ⟨j1, j2, fun n hn => k5 n (j3 n hn), fun n hn => k6 n (j4 n hn)⟩
      · intro s' h
        rw [seqTasks, htask] at h
        rcases ibrk s' h with ⟨j1, j2, j3, j4⟩
        exact ⟨j1, j2, fun n hn => k5 n (j3 n hn), fun n hn => k6 n (j4 n hn)⟩
    | failStage s1 m =>
      rcases mfail s1 m htask with ⟨k1, k2, k3, k4, k5⟩
      refine ⟨?_, ?_, ?_⟩
      · intro s' h
        rw [seqTasks, htask] at h
        cases h
      · intro s' msg h
        rw [seqTasks, htask] at h
        cases h
        exact ⟨k2, k3, k4, k5⟩
      · intro s' h
        rw [seqTasks, htask] at h
        cases h
    | brk s1 =>
      rcases mbrk s1 htask with ⟨k1, k2, k3, k4, k5⟩
      refine ⟨?_, ?_, ?_⟩
      · intro s' h
        rw [seqTasks, htask] at h
        cases h
      · intro s' msg h
        rw [seqTasks, htask] at h
        cases h
      · intro s' h
        rw [seqTasks, htask] at h
        cases h
        exact ⟨k2, k3, k4, k5⟩

/-- Invariants of the sequential block loop: every outcome keeps the
promotion/error discipline, and every `commitTxPeriodic` event carries a
block-boundary transaction number. -/
theorem seqBlocks_master (cfg : SeqCfg) (run : TxTask → Option String × Nat)
    (commitment : Nat → Nat) (doCommit : Nat → Bool) :
    ∀ (blocks : List Block) (s : SeqState),
    s.inputTxNum = s.outputTxNum → seqNoPromoteAfter s → seqNoErr s →
    (∀ s', seqBlocks cfg run commitment doCommit blocks s = SeqRes.ok s' →
      s'.inputTxNum = s'.outputTxNum ∧
      s'.outputTxNum = s.outputTxNum + tasksTotal blocks ∧
      seqNoPromoteAfter s' ∧ seqNoErr s' ∧
      (∀ n, SEv.commitTxPeriodic n ∈ s'.events → SEv.commitTxPeriodic n ∈ s.events ∨
        n ∈ blockBoundaries s.outputTxNum blocks) ∧
      (∀ n, SEv.commitTxFinal n ∈ s'.events → SEv.commitTxFinal n ∈ s.events)) ∧
    (∀ s' msg, seqBlocks cfg run commitment doCommit blocks s = SeqRes.failStage s' msg →
      seqNoPromoteAfter s' ∧ seqErrStopped s' ∧
      (∀ n, SEv.commitTxPeriodic n ∈ s'.events → SEv.commitTxPeriodic n ∈ s.events ∨
        n ∈ blockBoundaries s.outputTxNum blocks) ∧
      (∀ n, SEv.commitTxFinal n ∈ s'.events → SEv.commitTxFinal n ∈ s.events)) ∧
    (∀ s', seqBlocks cfg run commitment doCommit blocks s = SeqRes.brk s' →
      seqNoPromoteAfter s' ∧ seqErrStopped s' ∧
      (∀ n, SEv.commitTxPeriodic n ∈ s'.events → SEv.commitTxPeriodic n ∈ s.events ∨
        n ∈ blockBoundaries s.outputTxNum blocks) ∧
      (∀ n, SEv.commitTxFinal n ∈ s'.events → SEv.commitTxFinal n ∈ s.events)) := by
  intro blocks
  induction blocks with
  | nil =>
    intro s hio hp hne
    refine ⟨?_, ?_, ?_⟩
    · intro s' h
      cases h
      exact ⟨hio, rfl, hp, hne, fun n hn => Or.inl hn, fun n hn => hn⟩
    · intro s' msg h
      cases h
    · intro s' h
      cases h
  | cons b rest ih =>
    intro s hio hp hne
    have hio0 : ({ s with gasUsed := 0 } : SeqState).inputTxNum =
        ({ s with gasUsed := 0 } : SeqState).outputTxNum := hio
    have hp0 : seqNoPromoteAfter { s with gasUsed := 0 } := hp
    have hne0 : seqNoErr { s with gasUsed := 0 } := hne
    rcases seqTasks_master cfg run b (blockTaskIdxs b.txCount)
      { s with gasUsed := 0 } hio0 hp0 hne0 with ⟨tok, tfail, tbrk⟩
    cases htasks : seqTasks cfg run b (blockTaskIdxs b.txCount) { s with gasUsed := 0 } with
    | ok s1 =>
      rcases tok s1 htasks with ⟨k1, k2, k3, k4, k5, k6⟩
      rw [blockTaskIdxs_length] at k2
      cases hroot : rootCheck cfg commitment b s1 with
      | ok s2 =>
        rcases rootCheck_facts cfg commitment b s1 (SeqRes.ok s2) hroot with
          ⟨r1, r2, r3, r4, r5, r6⟩
        have r1' : s2.outputTxNum = s1.outputTxNum := r1
        have r2' : s2.inputTxNum = s1.inputTxNum := r2
        have r3' : seqNoPromoteAfter s1 → seqNoPromoteAfter s2 := r3
        have r4' : seqNoErr s1 → seqNoErr s2 := r4
        have r5' : ∀ n, SEv.commitTxPeriodic n ∈ s2.events →
            SEv.commitTxPeriodic n ∈ s1.events := r5
        have r6' : ∀ n, SEv.commitTxFinal n ∈ s2.events →
            SEv.commitTxFinal n ∈ s1.events := r6
        have k2' : s1.outputTxNum = s.outputTxNum + (b.txCount + 2) := k2
        rcases periodicCommit_facts cfg doCommit b s2 with ⟨p1, p2, p3, p4, p5, p6⟩
        have hio2 : (periodicCommit cfg doCommit b s2).inputTxNum =
            (periodicCommit cfg doCommit b s2).outputTxNum := by
          rw [p1, p2, r1', r2', k1]
        rcases ih (periodicCommit cfg doCommit b s2) hio2 (p3 (r3' k3)) (p4 (r4' k4))
          with ⟨iok, ifail, ibrk⟩
        have hout2 : (periodicCommit cfg doCommit b s2).outputTxNum =
            s.outputTxNum + (b.txCount + 2) := by
          rw [p1, r1', k2']
        have hper2 : ∀ n, SEv.commitTxPeriodic n ∈ (periodicCommit cfg doCommit b s2).events →
            SEv.commitTxPeriodic n ∈ s.events ∨
              n ∈ blockBoundaries s.outputTxNum (b :: rest) := by
          intro n hn
          rcases p5 n hn with h | h
          · exact Or.inl (k5 n (r5' n h))
          · refine Or.inr ?_
            rw [blockBoundaries]
            refine List.mem_cons.2 (Or.inl ?_)
            rw [h, r1', k2']
        have hfin2 : ∀ n, SEv.commitTxFinal n ∈ (periodicCommit cfg doCommit b s2).events →
            SEv.commitTxFinal n ∈ s.events := by
          intro n hn
          exact k6 n (r6' n (p6 n hn))
        refine ⟨?_, ?_, ?_⟩
        · intro s' h
          simp only [seqBlocks, htasks, hroot] at h
          rcases iok s' h with ⟨j1, j2, j3, j4, j5, j6⟩
          refine ⟨j1, ?_, j3, j4, ?_, fun n hn => hfin2 n (j6 n hn)⟩
          · rw [j2, hout2, tasksTotal]
            omega
          · intro n hn
            rcases j5 n hn with h' | h'
            · exact hper2 n h'
            · refine Or.inr ?_
              rw [blockBoundaries]
              refine List.mem_cons.2 (Or.inr ?_)
              rw [hout2] at h'
              exact h'
        · intro s' msg h
          simp only [seqBlocks, htasks, hroot] at h
          rcases ifail s' msg h with ⟨j1, j2, j3, j4⟩
          refine ⟨j1, j2, ?_, fun n hn => hfin2 n (j4 n hn)⟩
          intro n hn
          rcases j3 n hn with h' | h'
          · exact hper2 n h'
          · refine Or.inr ?_
            rw [blockBoundaries]
            refine List.mem_cons.2 (Or.inr ?_)
            rw [hout2] at h'
            exact h'
        · intro s' h
          simp only [seqBlocks, htasks, hroot] at h
          rcases ibrk s' h with ⟨j1, j2, j3, j4⟩
          refine ⟨j1, j2, ?_, fun n hn => hfin2 n (j4 n hn)⟩
          intro n hn
          rcases j3 n hn with h' | h'
          · exact hper2 n h'
          · refine Or.inr ?_
            rw [blockBoundaries]
            refine List.mem_cons.2 (Or.inr ?_)
            rw [hout2] at h'
            exact h'
      | failStage s2 m =>
        rcases rootCheck_facts cfg commitment b s1 (SeqRes.failStage s2 m) hroot with
          ⟨r1, r2, r3, r4, r5, r6⟩
        refine ⟨?_, ?_, ?_⟩
        · intro s' h
          simp only [seqBlocks, htasks, hroot] at h
          cases h
        · intro s' msg h
          simp only [seqBlocks, htasks, hroot] at h
          cases h
          refine ⟨r3 k3, noErr_errStopped _ (r4 k4), ?_, ?_⟩
          · intro n hn
            exact Or.inl (k5 n (r5 n hn))
          · intro n hn
            exact k6 n (r6 n hn)
        · intro s' h
          simp only [seqBlocks, htasks, hroot] at h
          cases h
      | brk s2 =>
        rcases rootCheck_facts cfg commitment b s1 (SeqRes.brk s2) hroot with
          ⟨r1, r2, r3, r4, r5, r6⟩
        refine ⟨?_, ?_, ?_⟩
        · intro s' h
          simp only [seqBlocks, htasks, hroot] at h
          cases h
        · intro s' msg h
          simp only [seqBlocks, htasks, hroot] at h
          cases h
        · intro s' h
          simp only [seqBlocks, htasks, hroot] at h
          cases h
          refine ⟨r3 k3, noErr_errStopped _ (r4 k4), ?_, ?_⟩
          · intro n hn
            exact Or.inl (k5 n (r5 n hn))
          · intro n hn
            exact k6 n (r6 n hn)
    | failStage s1 m =>
      rcases tfail s1 m htasks with ⟨k1, k2, k3, k4⟩
      refine ⟨?_, ?_, ?_⟩
      · intro s' h
        simp only [seqBlocks, htasks] at h
        cases h
      · intro s' msg h
        simp only [seqBlocks, htasks] at h
        cases h
        exact ⟨k1, k2, fun n hn => Or.inl (k3 n hn), k4⟩
      · intro s' h
        simp only [seqBlocks, htasks] at h
        cases h
    | brk s1 =>
      rcases tbrk s1 htasks with ⟨k1, k2, k3, k4⟩
      refine ⟨?_, ?_, ?_⟩
      · intro s' h
        simp only [seqBlocks, htasks] at h
        cases h
      · intro s' msg h
        simp only [seqBlocks, htasks] at h
        cases h
      · intro s' h
        simp only [seqBlocks, htasks] at h
        cases h
        exact ⟨k1, k2, fun n hn => Or.inl (k3 n hn), k4⟩

/-- The tail of `ExecV3` changes no counter and adds only
flush/update/commit events. -/
theorem seqTail_facts (cfg : SeqCfg) (s : SeqState) :
    (seqTail cfg s).outputTxNum = s.outputTxNum ∧
    (∀ n, SEv.taskError n ∈ (seqTail cfg s).events ↔ SEv.taskError n ∈ s.events) ∧
    (∀ n, SEv.applyState4 n ∈ (seqTail cfg s).events ↔ SEv.applyState4 n ∈ s.events) ∧
    (∀ n, SEv.applyLogsAndTraces n ∈ (seqTail cfg s).events ↔
      SEv.applyLogsAndTraces n ∈ s.events) ∧
    (∀ n, SEv.commitTxNum n ∈ (seqTail cfg s).events ↔ SEv.commitTxNum n ∈ s.events) ∧
    (∀ n, SEv.commitTxPeriodic n ∈ (seqTail cfg s).events ↔
      SEv.commitTxPeriodic n ∈ s.events) := by
  rw [seqTail]
  by_cases hext : cfg.useExternalTx
  · rw [if_pos hext]
    refine ⟨rfl, ?_, ?_, ?_, ?_, ?_⟩ <;> (intro n; simp)
  · rw [if_neg hext]
    refine ⟨rfl, ?_, ?_, ?_, ?_, ?_⟩ <;> (intro n; simp)

/-- If the commit drain loop of the parallel `rwLoop` reaches the commit
point, either nothing was drained (the loop was entered at a block
boundary) or the last applied task was a block-final one. -/
theorem commitDrain_some (run : TxTask → Option String × Nat)
    (trig : TxTask → Nat) : ∀ (incoming : List (List TxTask)) (d0 sF : DrainState),
    commitDrain run trig incoming d0 = some sF →
    sF.blockComplete = true ∧
    (sF = d0 ∨ ∃ t, sF.lastApplied = some t ∧ t.final = true) := by
  intro incoming
  induction incoming with
  | nil =>
    intro d0 sF h
    rw [commitDrain] at h
    by_cases hbc : d0.blockComplete
    · rw [if_pos hbc] at h
      cases h
      exact ⟨hbc, Or.inl rfl⟩
    · rw [if_neg hbc] at h
      cases h
  | cons batch rest ih =>
    intro d0 sF h
    by_cases hbc : d0.blockComplete = true
    · rw [commitDrain, if_pos hbc] at h
      cases h
      exact ⟨hbc, Or.inl rfl⟩
    · simp only [commitDrain, hbc, if_false, Bool.false_eq_true, ite_false] at h
      cases herr : (prqGo run trig false true (heapSort (d0.queue ++ batch))
          (initAcc d0.outputTxNum)).2.1 with
      | some e =>
        simp only [herr] at h
        cases h
      | none =>
        simp only [herr] at h
        rcases ih _ sF h with ⟨h1, h2⟩
        refine ⟨h1, ?_⟩
        rcases h2 with h2 | h2
        · -- the recursive start state is already complete: the drained
          -- iteration itself must have stopped at a block end
          have hbcF : (if 0 < (prqGo run trig false true (heapSort (d0.queue ++ batch))
              (initAcc d0.outputTxNum)).1.outputTxNum then
                (prqGo run trig false true (heapSort (d0.queue ++ batch))
                  (initAcc d0.outputTxNum)).1.stoppedAtBlockEnd
              else false) = true := by
            rw [h2] at h1
            exact h1
          by_cases hpos : 0 < (prqGo run trig false true (heapSort (d0.queue ++ batch))
              (initAcc d0.outputTxNum)).1.outputTxNum
          · have hstop : (prqGo run trig false true (heapSort (d0.queue ++ batch))
                (initAcc d0.outputTxNum)).1.stoppedAtBlockEnd = true := by
              rwa [if_pos hpos] at hbcF
            have hfin := (prqGo_inv run trig false true
              (heapSort (d0.queue ++ batch)) (initAcc d0.outputTxNum)).2.2
              (by intro hfalse; exact absurd hfalse (by simp [initAcc])) hstop
            rcases hfin with ⟨t, ht1, ht2⟩
            refine Or.inr ⟨t, ?_, ht2⟩
            rw [h2]
            show (match (prqGo run trig false true (heapSort (d0.queue ++ batch))
                (initAcc d0.outputTxNum)).1.lastApplied with
              | some t => some t
              | none => d0.lastApplied) = some t
            rw [ht1]
          · exfalso
            rw [if_neg hpos] at hbcF
            exact absurd hbcF (by decide)
        · exact Or.inr h2

/-- C10: error atomicity of the apply step.  Sequential inline path: a
task error (VM error or gas-check failure) leaves no `ApplyState4`,
`ApplyLogsAndTraces` or `CommitTxNum` call for that task in the trace and
`outputTxNum` never advances past it.  `processResultQueue`: when the
in-place re-execution still errors, the failing task is the last popped
one, the returned `outputTxNum` equals its number (not advanced past it),
and none of the three promotion calls was made for it. -/
theorem C10_theorem :
    (∀ (cfg : SeqCfg) (run : TxTask → Option String × Nat)
        (commitment : Nat → Nat) (doCommit : Nat → Bool) (blocks : List Block)
        (startTxNum stageStart n : Nat),
      SEv.taskError n ∈ (seqRunFrom cfg run commitment doCommit blocks
          (initSeqState startTxNum stageStart)).1.events →
      SEv.applyState4 n ∉ (seqRunFrom cfg run commitment doCommit blocks
          (initSeqState startTxNum stageStart)).1.events ∧
      SEv.applyLogsAndTraces n ∉ (seqRunFrom cfg run commitment doCommit blocks
          (initSeqState startTxNum stageStart)).1.events ∧
      SEv.commitTxNum n ∉ (seqRunFrom cfg run commitment doCommit blocks
          (initSeqState startTxNum stageStart)).1.events ∧
      (seqRunFrom cfg run commitment doCommit blocks
          (initSeqState startTxNum stageStart)).1.outputTxNum ≤ n) ∧
    (∀ (run : TxTask → Option String × Nat) (trig : TxTask → Nat)
        (canRetry forceStop : Bool) (queue : List TxTask)
        (outputTxNumIn : Nat) (e : String),
      (processResultQueue run trig canRetry forceStop queue outputTxNumIn).2.1 = some e →
      ∃ t, (processResultQueue run trig canRetry forceStop queue
          outputTxNumIn).1.popped.getLast? = some t ∧
        t.txNum = (processResultQueue run trig canRetry forceStop queue
          outputTxNumIn).1.outputTxNum ∧
        (run t).1 = some e ∧ isConflict t = true ∧
        t.txNum ∉ commitNums (processResultQueue run trig canRetry forceStop
          queue outputTxNumIn).1.events ∧
        t.txNum ∉ applyStateNums (processResultQueue run trig canRetry forceStop
          queue outputTxNumIn).1.events ∧
        t.txNum ∉ logsNums (processResultQueue run trig canRetry forceStop
          queue outputTxNumIn).1.events) := by
  constructor
  · intro cfg run commitment doCommit blocks startTxNum stageStart n hmem
    have hio : (initSeqState startTxNum stageStart).inputTxNum =
        (initSeqState startTxNum stageStart).outputTxNum := rfl
    have hp : seqNoPromoteAfter (initSeqState startTxNum stageStart) := by
      intro m hm
      simp [initSeqState] at hm
    have hne : seqNoErr (initSeqState startTxNum stageStart) := by
      intro m hm
      simp [initSeqState] at hm
    rcases seqBlocks_master cfg run commitment doCommit blocks
      (initSeqState startTxNum stageStart) hio hp hne with ⟨mok, mfail, mbrk⟩
    rw [seqRunFrom] at hmem ⊢
    cases hblocks : seqBlocks cfg run commitment doCommit blocks
        (initSeqState startTxNum stageStart) with
    | ok s1 =>
      rcases mok s1 hblocks with ⟨_, _, k3, k4, _, _⟩
      rw [hblocks] at hmem
      rcases seqTail_facts cfg s1 with ⟨t1, t2, t3, t4, t5, t6⟩
      exact absurd ((t2 n).1 hmem) (k4 n)
    | failStage s1 m =>
      rcases mfail s1 m hblocks with ⟨k1, k2, _, _⟩
      rw [hblocks] at hmem
      refine ⟨?_, ?_, ?_, k2 n hmem⟩
      · intro hc
        exact absurd (k1 n (Or.inl hc)) (not_lt.2 (k2 n hmem))
      · intro hc
        exact absurd (k1 n (Or.inr (Or.inl hc))) (not_lt.2 (k2 n hmem))
      · intro hc
        exact absurd (k1 n (Or.inr (Or.inr hc))) (not_lt.2 (k2 n hmem))
    | brk s1 =>
      rcases mbrk s1 hblocks with ⟨k1, k2, _, _⟩
      rw [hblocks] at hmem
      rcases seqTail_facts cfg s1 with ⟨t1, t2, t3, t4, t5, t6⟩
      have herr := k2 n ((t2 n).1 hmem)
      refine ⟨?_, ?_, ?_, by rw [t1]; exact herr⟩
      · intro hc
        exact absurd (k1 n (Or.inl ((t3 n).1 hc))) (not_lt.2 herr)
      · intro hc
        exact absurd (k1 n (Or.inr (Or.inl ((t4 n).1 hc)))) (not_lt.2 herr)
      · intro hc
        exact absurd (k1 n (Or.inr (Or.inr ((t5 n).1 hc)))) (not_lt.2 herr)
  · intro run trig canRetry forceStop queue outputTxNumIn e he
    simp only [processResultQueue] at he ⊢
    rcases prqGo_error run trig canRetry forceStop queue (initAcc outputTxNumIn)
      e he with ⟨t, h1, h2, h3, h4⟩
    rcases prqGo_main run trig canRetry forceStop queue (initAcc outputTxNumIn)
      with ⟨hle, hcm⟩
    have hinitE : commitNums (initAcc outputTxNumIn).events = [] := rfl
    have hinitO : (initAcc outputTxNumIn).outputTxNum = outputTxNumIn := rfl
    rw [hinitE, hinitO, List.nil_append] at hcm
    rw [hinitO] at hle
    have hsub := (prqGo_inv run trig canRetry forceStop queue
      (initAcc outputTxNumIn)).1 (by simp [initAcc, applyStateNums_nil, commitNums_nil])
    have hlogs := (prqGo_inv run trig canRetry forceStop queue
      (initAcc outputTxNumIn)).2.1 rfl
    have hnc : t.txNum ∉ commitNums (prqGo run trig canRetry forceStop queue
        (initAcc outputTxNumIn)).1.events := by
      rw [hcm, h2]
      intro hc
      have := List.mem_range'_1.1 hc
      omega
    refine ⟨t, h1, h2, h3, h4, hnc, ?_, ?_⟩
    · intro hc
      exact hnc (hsub.subset hc)
    · intro hc
      rw [hlogs] at hc
      exact hnc hc

/-- C10 (witness): a queue whose only task is a conflict that still fails
after in-place re-execution. -/
theorem C10_witness :
    ∃ t, (processResultQueue (fun _ => (some "boom", 0)) trig0 true false
        [sampleConflict] 10).1.popped.getLast? = some t ∧
      t.txNum = (processResultQueue (fun _ => (some "boom", 0)) trig0 true false
        [sampleConflict] 10).1.outputTxNum ∧
      ((fun (_ : TxTask) => ((some "boom" : Option String), (0 : Nat))) t).1 = some "boom" ∧
      isConflict t = true ∧
      t.txNum ∉ commitNums (processResultQueue (fun _ => (some "boom", 0)) trig0 true false
        [sampleConflict] 10).1.events ∧
      t.txNum ∉ applyStateNums (processResultQueue (fun _ => (some "boom", 0)) trig0 true false
        [sampleConflict] 10).1.events ∧
      t.txNum ∉ logsNums (processResultQueue (fun _ => (some "boom", 0)) trig0 true false
        [sampleConflict] 10).1.events :=
  C10_theorem.2 (fun _ => (some "boom", 0)) trig0 true false [sampleConflict] 10
    "boom" (by decide)

/-- C3 (counterexample): with `badBlockHalt = false`, a root mismatch at
block 14 (stage previously at 10, target 20) unwinds to
`(maxBlockNum + execStage.BlockNumber) / 2 = 15` with the mismatching
block's own hash (114), not to `(maxBlock + H - 1) / 2 = 16` with the
parent hash (113) as S5 states; and the tail still runs
`execStage.Update(14)` and `applyTx.Commit()` (at `outputTxNum = 13`),
recording the mismatching block's progress, with a `nil` stage error. -/
theorem C3_counterexample :
    SEv.unwindTo 15 114 ∈ (seqRunFrom demoCfgRoot run0 demoCommitMismatch14
      (fun _ => false) [demoBlock 11, demoBlock 12, demoBlock 13, demoBlock 14]
      (initSeqState 5 10)).1.events ∧
    SEv.unwindTo 16 113 ∉ (seqRunFrom demoCfgRoot run0 demoCommitMismatch14
      (fun _ => false) [demoBlock 11, demoBlock 12, demoBlock 13, demoBlock 14]
      (initSeqState 5 10)).1.events ∧
    SEv.stageUpdate 14 ∈ (seqRunFrom demoCfgRoot run0 demoCommitMismatch14
      (fun _ => false) [demoBlock 11, demoBlock 12, demoBlock 13, demoBlock 14]
      (initSeqState 5 10)).1.events ∧
    SEv.commitTxFinal 13 ∈ (seqRunFrom demoCfgRoot run0 demoCommitMismatch14
      (fun _ => false) [demoBlock 11, demoBlock 12, demoBlock 13, demoBlock 14]
      (initSeqState 5 10)).1.events ∧
    (seqRunFrom demoCfgRoot run0 demoCommitMismatch14
      (fun _ => false) [demoBlock 11, demoBlock 12, demoBlock 13, demoBlock 14]
      (initSeqState 5 10)).2 = none := by
  decide

/-- C3: when a block's tasks all apply but the computed commitment differs
from the header root (and commitment checking is on), then with
`badBlockHalt = true` the stage fails with "wrong trie root"; with
`badBlockHalt = false` the engine appends `ComputeCommitment`, `agg.Flush`,
`ReportBadHeaderPoS` (if the header-downloader is present) and
`u.UnwindTo((maxBlockNum + execStage.BlockNumber) / 2, header.Hash())` (if
`execStage.BlockNumber < maxBlockNum`), breaks the loop, and still runs the
tail (`agg.Flush`, `execStage.Update`, final `applyTx.Commit()`) with a
`nil` stage error; in both cases the remaining blocks are irrelevant. -/
theorem C3_theorem (cfg : SeqCfg) (run : TxTask → Option String × Nat)
    (commitment : Nat → Nat) (doCommit : Nat → Bool) (b : Block)
    (rest : List Block) (s s1 : SeqState)
    (hok : seqTasks cfg run b (blockTaskIdxs b.txCount) { s with gasUsed := 0 } =
      SeqRes.ok s1)
    (hdisc : cfg.discardCommitment = false)
    (hmm : commitment b.blockNum ≠ b.headerRoot) :
    (cfg.badBlockHalt = true →
      seqRunFrom cfg run commitment doCommit (b :: rest) s =
        ({ s1 with events := s1.events ++ [SEv.computeCommitment b.blockNum] },
          some "wrong trie root")) ∧
    (cfg.badBlockHalt = false →
      seqRunFrom cfg run commitment doCommit (b :: rest) s =
        (seqTail cfg { s1 with
          events := (s1.events ++ [SEv.computeCommitment b.blockNum]) ++
            [SEv.aggFlush] ++
            (if cfg.hdPresent then
              [SEv.reportBadHeader b.headerHash b.parentHash] else []) ++
            (if cfg.stageStartBlock < cfg.maxBlockNum then
              [SEv.unwindTo ((cfg.maxBlockNum + cfg.stageStartBlock) / 2)
                b.headerHash] else []) }, none)) ∧
    (∀ rest' : List Block,
      seqRunFrom cfg run commitment doCommit (b :: rest) s =
        seqRunFrom cfg run commitment doCommit (b :: rest') s) := by
  have hndisc : ¬cfg.discardCommitment = true := by
    simp [hdisc]
  have hrootT : cfg.badBlockHalt = true →
      rootCheck cfg commitment b s1 =
        SeqRes.failStage
          { s1 with events := s1.events ++ [SEv.computeCommitment b.blockNum] }
          "wrong trie root" := by
    intro hb
    simp only [rootCheck]
    rw [if_neg hndisc, if_neg hmm, if_pos hb]
  have hrootF : cfg.badBlockHalt = false →
      rootCheck cfg commitment b s1 =
        SeqRes.brk { s1 with
          events := (s1.events ++ [SEv.computeCommitment b.blockNum]) ++
            [SEv.aggFlush] ++
            (if cfg.hdPresent then
              [SEv.reportBadHeader b.headerHash b.parentHash] else []) ++
            (if cfg.stageStartBlock < cfg.maxBlockNum then
              [SEv.unwindTo ((cfg.maxBlockNum + cfg.stageStartBlock) / 2)
                b.headerHash] else []) } := by
    intro hb
    simp only [rootCheck]
    rw [if_neg hndisc, if_neg hmm, if_neg (show ¬cfg.badBlockHalt = true by simp [hb])]
  have hmain : ∀ rest0 : List Block,
      seqRunFrom cfg run commitment doCommit (b :: rest0) s =
        if cfg.badBlockHalt then
          ({ s1 with events := s1.events ++ [SEv.computeCommitment b.blockNum] },
            some "wrong trie root")
        else
          (seqTail cfg { s1 with
            events := (s1.events ++ [SEv.computeCommitment b.blockNum]) ++
              [SEv.aggFlush] ++
              (if cfg.hdPresent then
                [SEv.reportBadHeader b.headerHash b.parentHash] else []) ++
              (if cfg.stageStartBlock < cfg.maxBlockNum then
                [SEv.unwindTo ((cfg.maxBlockNum + cfg.stageStartBlock) / 2)
                  b.headerHash] else []) }, none) := by
    intro rest0
    by_cases hb : cfg.badBlockHalt = true
    · rw [seqRunFrom]
      simp only [seqBlocks, hok, hrootT hb]
      rw [if_pos hb]
    · have hb' : cfg.badBlockHalt = false := by
        cases hcb : cfg.badBlockHalt
        · rfl
        · exact absurd hcb hb
      rw [seqRunFrom]
      simp only [seqBlocks, hok, hrootF hb']
      rw [if_neg hb]
  refine ⟨?_, ?_, ?_⟩
  · intro hb
    rw [hmain rest, if_pos hb]
  · intro hb
    rw [hmain rest, if_neg (show ¬cfg.badBlockHalt = true by simp [hb])]
  · intro rest'
    rw [hmain rest, hmain rest']

/-- C3 (witness): a root mismatch at block 14 with `badBlockHalt = true`
fails the stage with "wrong trie root". -/
theorem C3_witness :
    seqRunFrom { demoCfgRoot with badBlockHalt := true } run0 demoCommitMismatch14
        (fun _ => false) [demoBlock 14] (initSeqState 5 10) =
      ({ outputTxNum := 7, inputTxNum := 7, stageProgress := 14, gasUsed := 0,
          events := [SEv.applyState4 5, SEv.applyLogsAndTraces 5, SEv.commitTxNum 5,
            SEv.applyState4 6, SEv.applyLogsAndTraces 6, SEv.commitTxNum 6,
            SEv.computeCommitment 14] }, some "wrong trie root") := by
  have h := (C3_theorem { demoCfgRoot with badBlockHalt := true } run0
      demoCommitMismatch14 (fun _ => false) (demoBlock 14) [] (initSeqState 5 10)
      { outputTxNum := 7, inputTxNum := 7, stageProgress := 14, gasUsed := 0,
        events := [SEv.applyState4 5, SEv.applyLogsAndTraces 5, SEv.commitTxNum 5,
          SEv.applyState4 6, SEv.applyLogsAndTraces 6, SEv.commitTxNum 6] }
      (by decide) (by decide) (by decide)).1 (by decide)
  exact h.trans (by decide)

/-- C4 (counterexample): after the gas-mismatch break inside block 1
(`badBlockHalt = false`), the unconditional tail still commits the durable
transaction at `outputTxNum = 2`, which is neither the start (0) nor a
block boundary (the only boundary is 3). -/
theorem C4_counterexample :
    SEv.commitTxFinal 2 ∈ (seqRunFrom demoCfgGas demoRunGas3 (fun bn => bn)
      (fun _ => false) [demoGasBlock] (initSeqState 0 0)).1.events ∧
    blockBoundaries 0 [demoGasBlock] = [3] ∧
    (2 : Nat) ∉ blockBoundaries 0 [demoGasBlock] ∧ (2 : Nat) ≠ 0 := by
  decide

/-- C4: the in-loop durable commits are block-boundary aligned.  Parallel
`rwLoop`: if the drain ever reaches the commit point, `blockComplete` is
true there, and either nothing was drained or the last applied task was a
block-final one.  Sequential path: every periodic (size-triggered)
`applyTx.Commit()` carries an `outputTxNum` lying on a block boundary. -/
theorem C4_theorem :
    (∀ (run : TxTask → Option String × Nat) (trig : TxTask → Nat)
        (incoming : List (List TxTask)) (d0 sF : DrainState),
      commitDrain run trig incoming d0 = some sF →
      sF.blockComplete = true ∧
      (sF = d0 ∨ ∃ t, sF.lastApplied = some t ∧ t.final = true)) ∧
    (∀ (cfg : SeqCfg) (run : TxTask → Option String × Nat)
        (commitment : Nat → Nat) (doCommit : Nat → Bool) (blocks : List Block)
        (startTxNum stageStart n : Nat),
      SEv.commitTxPeriodic n ∈ (seqRunFrom cfg run commitment doCommit blocks
          (initSeqState startTxNum stageStart)).1.events →
      n ∈ blockBoundaries startTxNum blocks) := by
  constructor
  · intro run trig incoming d0 sF h
    exact commitDrain_some run trig incoming d0 sF h
  · intro cfg run commitment doCommit blocks startTxNum stageStart n hmem
    have hio : (initSeqState startTxNum stageStart).inputTxNum =
        (initSeqState startTxNum stageStart).outputTxNum := rfl
    have hp : seqNoPromoteAfter (initSeqState startTxNum stageStart) := by
      intro m hm
      simp [initSeqState] at hm
    have hne : seqNoErr (initSeqState startTxNum stageStart) := by
      intro m hm
      simp [initSeqState] at hm
    rcases seqBlocks_master cfg run commitment doCommit blocks
      (initSeqState startTxNum stageStart) hio hp hne with ⟨mok, mfail, mbrk⟩
    rw [seqRunFrom] at hmem
    cases hblocks : seqBlocks cfg run commitment doCommit blocks
        (initSeqState startTxNum stageStart) with
    | ok s1 =>
      rcases mok s1 hblocks with ⟨_, _, _, _, k5, _⟩
      rw [hblocks] at hmem
      rcases seqTail_facts cfg s1 with ⟨_, _, _, _, _, t6⟩
      rcases k5 n ((t6 n).1 hmem) with h | h
      · exact absurd h (by simp [initSeqState])
      · exact h
    | failStage s1 m =>
      rcases mfail s1 m hblocks with ⟨_, _, k3, _⟩
      rw [hblocks] at hmem
      rcases k3 n hmem with h | h
      · exact absurd h (by simp [initSeqState])
      · exact h
    | brk s1 =>
      rcases mbrk s1 hblocks with ⟨_, _, k3, _⟩
      rw [hblocks] at hmem
      rcases seqTail_facts cfg s1 with ⟨_, _, _, _, _, t6⟩
      rcases k3 n ((t6 n).1 hmem) with h | h
      · exact absurd h (by simp [initSeqState])
      · exact h

/-- C4 (witness): draining one batch holding a single block-final task
reaches the commit point with `blockComplete = true` and that task as the
last applied one. -/
theorem C4_witness :
    ({ queue := [], outputTxNum := 11, blockComplete := true,
       lastApplied := some sampleF10 } : DrainState).blockComplete = true ∧
    (({ queue := [], outputTxNum := 11, blockComplete := true,
        lastApplied := some sampleF10 } : DrainState) =
      { queue := [], outputTxNum := 10, blockComplete := false,
        lastApplied := none } ∨
     ∃ t, ({ queue := [], outputTxNum := 11, blockComplete := true,
             lastApplied := some sampleF10 } : DrainState).lastApplied = some t ∧
       t.final = true) :=
  C4_theorem.1 run0 trig0 [[sampleF10]]
    { queue := [], outputTxNum := 10, blockComplete := false, lastApplied := none }
    { queue := [], outputTxNum := 11, blockComplete := true,
      lastApplied := some sampleF10 }
    (by decide)

/-- C5 (counterexample): with `badBlockHalt = false`, the gas mismatch in
block 1 (executed 3 gas, header declares 5) does not fail the stage: the
run returns a `nil` error after recording the task error and the unwind. -/
theorem C5_counterexample :
    (seqRunFrom demoCfgGas demoRunGas3 (fun bn => bn) (fun _ => false)
      [demoGasBlock] (initSeqState 0 0)).2 = none ∧
    SEv.taskError 2 ∈ (seqRunFrom demoCfgGas demoRunGas3 (fun bn => bn)
      (fun _ => false) [demoGasBlock] (initSeqState 0 0)).1.events ∧
    SEv.unwindTo 0 7 ∈ (seqRunFrom demoCfgGas demoRunGas3 (fun bn => bn)
      (fun _ => false) [demoGasBlock] (initSeqState 0 0)).1.events := by
  decide

/-- C5: gas cross-check at the block-final task.  If the final task itself
executes without a VM error, then: on `gasUsed` mismatch for a non-genesis
block, `badBlockHalt = true` fails the stage with "gas used by execution
does not match header" while `badBlockHalt = false` records the task
error, reports the bad header, unwinds to `blockNum - 1` and breaks; the
genesis block (number 0) is exempt; on a match the task applies and the
accumulator resets to zero; a non-final error-free task applies and adds
its `usedGas` to the accumulator. -/
theorem C5_theorem (cfg : SeqCfg) (run : TxTask → Option String × Nat)
    (b : Block) (s : SeqState)
    (hrun : (run (mkTask b s.inputTxNum (b.txCount : Int))).1 = none) :
    (s.gasUsed + (run (mkTask b s.inputTxNum (b.txCount : Int))).2 ≠
        b.headerGasUsed →
      0 < b.blockNum →
      (cfg.badBlockHalt = true →
        seqTask cfg run b s (b.txCount : Int) =
          SeqRes.failStage { s with
            events := s.events ++ [SEv.taskError s.inputTxNum] ++
              (if cfg.hdPresent then
                [SEv.reportBadHeader b.headerHash b.parentHash] else []) }
            "gas used by execution does not match header") ∧
      (cfg.badBlockHalt = false →
        seqTask cfg run b s (b.txCount : Int) =
          SeqRes.brk { s with
            events := (s.events ++ [SEv.taskError s.inputTxNum] ++
              (if cfg.hdPresent then
                [SEv.reportBadHeader b.headerHash b.parentHash] else [])) ++
              [SEv.unwindTo (b.blockNum - 1) b.headerHash] })) ∧
    (b.blockNum = 0 →
      seqTask cfg run b s (b.txCount : Int) =
        SeqRes.ok { s with
          gasUsed := 0,
          events := s.events ++ [SEv.applyState4 s.inputTxNum,
            SEv.applyLogsAndTraces s.inputTxNum, SEv.commitTxNum s.inputTxNum],
          outputTxNum := s.outputTxNum + 1,
          stageProgress := b.blockNum,
          inputTxNum := s.inputTxNum + 1 }) ∧
    (s.gasUsed + (run (mkTask b s.inputTxNum (b.txCount : Int))).2 =
        b.headerGasUsed →
      seqTask cfg run b s (b.txCount : Int) =
        SeqRes.ok { s with
          gasUsed := 0,
          events := s.events ++ [SEv.applyState4 s.inputTxNum,
            SEv.applyLogsAndTraces s.inputTxNum, SEv.commitTxNum s.inputTxNum],
          outputTxNum := s.outputTxNum + 1,
          stageProgress := b.blockNum,
          inputTxNum := s.inputTxNum + 1 }) ∧
    (∀ idx : Int, idx ≠ (b.txCount : Int) →
      (run (mkTask b s.inputTxNum idx)).1 = none →
      seqTask cfg run b s idx =
        SeqRes.ok { s with
          gasUsed := s.gasUsed + (run (mkTask b s.inputTxNum idx)).2,
          events := s.events ++ [SEv.applyState4 s.inputTxNum,
            SEv.applyLogsAndTraces s.inputTxNum, SEv.commitTxNum s.inputTxNum],
          outputTxNum := s.outputTxNum + 1,
          stageProgress := b.blockNum,
          inputTxNum := s.inputTxNum + 1 }) := by
  have he : (runApply run (mkTask b s.inputTxNum (b.txCount : Int))).error =
      none := hrun
  have hf : (runApply run (mkTask b s.inputTxNum (b.txCount : Int))).final =
      true := by
    simp [runApply, mkTask]
  have hu : (runApply run (mkTask b s.inputTxNum (b.txCount : Int))).usedGas =
      (run (mkTask b s.inputTxNum (b.txCount : Int))).2 := rfl
  have hbn : (runApply run (mkTask b s.inputTxNum (b.txCount : Int))).blockNum =
      b.blockNum := rfl
  refine ⟨?_, ?_, ?_, ?_⟩
  · intro hgas hpos
    have hcond : s.gasUsed + (runApply run (mkTask b s.inputTxNum
        (b.txCount : Int))).usedGas ≠ b.headerGasUsed ∧
        0 < (runApply run (mkTask b s.inputTxNum (b.txCount : Int))).blockNum := by
      constructor
      · rw [hu]
        exact hgas
      · rw [hbn]
        exact hpos
    have herr : seqTaskErr b
        (s.gasUsed + (runApply run (mkTask b s.inputTxNum
          (b.txCount : Int))).usedGas)
        (runApply run (mkTask b s.inputTxNum (b.txCount : Int))) =
        some "gas used by execution does not match header" := by
      simp only [seqTaskErr, he, hf, reduceIte]
      rw [if_pos hcond]
    constructor
    · intro hb
      rw [seqTask_eq]
      simp only [herr, hb, reduceIte]
    · intro hb
      rw [seqTask_eq]
      simp only [herr, hb, Bool.false_eq_true, reduceIte]
  · intro h0
    have hcond : ¬(s.gasUsed + (runApply run (mkTask b s.inputTxNum
        (b.txCount : Int))).usedGas ≠ b.headerGasUsed ∧
        0 < (runApply run (mkTask b s.inputTxNum (b.txCount : Int))).blockNum) := by
      intro hc
      rw [hbn, h0] at hc
      exact absurd hc.2 (by decide)
    have herr : seqTaskErr b
        (s.gasUsed + (runApply run (mkTask b s.inputTxNum
          (b.txCount : Int))).usedGas)
        (runApply run (mkTask b s.inputTxNum (b.txCount : Int))) = none := by
      simp only [seqTaskErr, he, hf, reduceIte]
      rw [if_neg hcond]
    rw [seqTask_eq]
    simp only [herr, hf, reduceIte]
  · intro hgas
    have hcond : ¬(s.gasUsed + (runApply run (mkTask b s.inputTxNum
        (b.txCount : Int))).usedGas ≠ b.headerGasUsed ∧
        0 < (runApply run (mkTask b s.inputTxNum (b.txCount : Int))).blockNum) := by
      intro hc
      rw [hu] at hc
      exact hc.1 hgas
    have herr : seqTaskErr b
        (s.gasUsed + (runApply run (mkTask b s.inputTxNum
          (b.txCount : Int))).usedGas)
        (runApply run (mkTask b s.inputTxNum (b.txCount : Int))) = none := by
      simp only [seqTaskErr, he, hf, reduceIte]
      rw [if_neg hcond]
    rw [seqTask_eq]
    simp only [herr, hf, reduceIte]
  · intro idx hidx herr2
    have he2 : (runApply run (mkTask b s.inputTxNum idx)).error = none := herr2
    have hf2 : (runApply run (mkTask b s.inputTxNum idx)).final = false := by
      simp [runApply, mkTask, hidx]
    have hu2 : (runApply run (mkTask b s.inputTxNum idx)).usedGas =
        (run (mkTask b s.inputTxNum idx)).2 := rfl
    have herr : seqTaskErr b
        (s.gasUsed + (runApply run (mkTask b s.inputTxNum idx)).usedGas)
        (runApply run (mkTask b s.inputTxNum idx)) = none := by
      simp only [seqTaskErr, he2, hf2, Bool.false_eq_true, reduceIte]
    rw [seqTask_eq]
    simp only [herr, hf2, Bool.false_eq_true, reduceIte]
    rfl

/-- C5 (witness): a 3-gas execution against a header declaring 5 gas, with
`badBlockHalt = false`, breaks the loop after recording the task error,
the bad-header report and the unwind to block 0. -/
theorem C5_witness :
    seqTask demoCfgGas demoRunGas3 demoGasBlock
        { outputTxNum := 2, inputTxNum := 2, stageProgress := 1, gasUsed := 3,
          events := [] } (demoGasBlock.txCount : Int) =
      SeqRes.brk { outputTxNum := 2, inputTxNum := 2, stageProgress := 1,
                   gasUsed := 3,
                   events := [SEv.taskError 2, SEv.reportBadHeader 7 6,
                     SEv.unwindTo 0 7] } := by
  have h := ((C5_theorem demoCfgGas demoRunGas3 demoGasBlock
      { outputTxNum := 2, inputTxNum := 2, stageProgress := 1, gasUsed := 3,
        events := [] } (by decide)).1 (by decide) (by decide)).2 (by decide)
  exact h.trans (by decide)

/-- C8: a failed `FindBlockNum` mapping aborts reconstitution before any
replay work: if the step's `startTxNum` cannot be mapped,
`reconstituteStep` returns the snapshot-boundary error for it and its
result does not depend on the replay at all; likewise for `endTxNum`; at
the top level of `ReconstituteState` a failed mapping of `toTxNum` is a
fatal error as well. -/
theorem C8_theorem (o : TxNumsOracle) (last : Bool)
    (blockNum stepStart stepEnd : Nat) :
    ((o.findBlockNum stepStart).1 = false →
      ∀ replay replay' : ReconStepPlan → Except String Unit,
        reconstituteStep o last blockNum stepStart stepEnd replay =
          Except.error "step startTxNum not found in snapshot blocks" ∧
        reconstituteStep o last blockNum stepStart stepEnd replay =
          reconstituteStep o last blockNum stepStart stepEnd replay') ∧
    ((o.findBlockNum stepStart).1 = true → (o.findBlockNum stepEnd).1 = false →
      ∀ replay replay' : ReconStepPlan → Except String Unit,
        reconstituteStep o last blockNum stepStart stepEnd replay =
          Except.error "step endTxNum not found in snapshot blocks" ∧
        reconstituteStep o last blockNum stepStart stepEnd replay =
          reconstituteStep o last blockNum stepStart stepEnd replay') ∧
    (∀ toTxNum : Nat, (o.findBlockNum toTxNum).1 = false →
      reconstituteStateBounds o toTxNum =
        Except.error "blockNum for mininmaxTxNum not found") := by
  refine ⟨?_, ?_, ?_⟩
  · intro h replay replay'
    constructor <;>
      simp only [reconstituteStep, reconstituteStepBounds, h, Bool.not_false,
        reduceIte]
  · intro h1 h2 replay replay'
    constructor <;>
      simp only [reconstituteStep, reconstituteStepBounds, h1, h2,
        Bool.not_true, Bool.not_false, Bool.false_eq_true, reduceIte]
  · intro toTxNum h
    simp only [reconstituteStateBounds, h, Bool.not_false, reduceIte]

/-- C8 (witness): an oracle that never finds a block makes
`reconstituteStep` fail with the snapshot-boundary error. -/
theorem C8_witness :
    reconstituteStep failOracle false 0 0 0 (fun _ => Except.ok ()) =
      Except.error "step startTxNum not found in snapshot blocks" :=
  ((C8_theorem failOracle false 0 0 0).1 rfl (fun _ => Except.ok ())
    (fun _ => Except.ok ())).1

/-- C9: `ExecV3` ignores its caller-supplied `parallel` argument: any two
invocations differing only in that flag produce identical results, and the
result is always the sequential path's. -/
theorem C9_theorem (cfg : SeqCfg) (run : TxTask → Option String × Nat)
    (trig : TxTask → Nat) (commitment : Nat → Nat) (doCommit : Nat → Bool)
    (blocks : List Block) (incoming : List (List TxTask))
    (s0 : SeqState) (d0 : DrainState) (p1 p2 : Bool) :
    ExecV3run cfg run trig commitment doCommit blocks incoming s0 d0 p1 =
      ExecV3run cfg run trig commitment doCommit blocks incoming s0 d0 p2 ∧
    ExecV3run cfg run trig commitment doCommit blocks incoming s0 d0 p1 =
      Sum.inr (seqRunFrom cfg run commitment doCommit blocks s0) :=
  ⟨rfl, rfl⟩

/-! ## Byte-string order and big-endian encoding -/

theorem bytesLt_nil_right : ∀ b : Bytes, bytesLt b [] = false := by
  intro b
  cases b <;> rfl

theorem bytesLt_irrefl : ∀ a : Bytes, bytesLt a a = false := by
  intro a
  induction a with
  | nil => rfl
  | cons x xs ih =>
    show (if x < x then true else if x = x then bytesLt xs xs else false) = false
    rw [if_neg (lt_irrefl x), if_pos rfl]
    exact ih

theorem bytesLt_trans : ∀ a b c : Bytes, bytesLt a b = true → bytesLt b c = true →
    bytesLt a c = true := by
  intro a
  induction a with
  | nil =>
    intro b c hab hbc
    cases c with
    | nil =>
      rw [bytesLt_nil_right] at hbc
      cases hbc
    | cons z zs => rfl
  | cons x xs ih =>
    intro b c hab hbc
    cases b with
    | nil =>
      rw [bytesLt_nil_right] at hab
      cases hab
    | cons y ys =>
      cases c with
      | nil =>
        rw [bytesLt_nil_right] at hbc
        cases hbc
      | cons z zs =>
        change (if x < y then true
          else if x = y then bytesLt xs ys else false) = true at hab
        change (if y < z then true
          else if y = z then bytesLt ys zs else false) = true at hbc
        show (if x < z then true
          else if x = z then bytesLt xs zs else false) = true
        by_cases h1 : x < y
        · by_cases h2 : y < z
          · rw [if_pos (lt_trans h1 h2)]
          · rw [if_neg h2] at hbc
            by_cases h3 : y = z
            · subst h3
              rw [if_pos h1]
            · rw [if_neg h3] at hbc
              cases hbc
        · rw [if_neg h1] at hab
          by_cases h1e : x = y
          · rw [if_pos h1e] at hab
            subst h1e
            by_cases h2 : x < z
            · rw [if_pos h2]
            · rw [if_neg h2] at hbc ⊢
              by_cases h3 : x = z
              · rw [if_pos h3] at hbc ⊢
                exact ih ys zs hab hbc
              · rw [if_neg h3] at hbc
                cases hbc
          · rw [if_neg h1e] at hab
            cases hab

theorem bytesLt_asymm (a b : Bytes) (h : bytesLt a b = true) :
    bytesLt b a = false := by
  cases hc : bytesLt b a
  · rfl
  · have hir := bytesLt_trans a b a h hc
    rw [bytesLt_irrefl] at hir
    cases hir

theorem bytesLt_trich : ∀ a b : Bytes,
    bytesLt a b = true ∨ a = b ∨ bytesLt b a = true := by
  intro a
  induction a with
  | nil =>
    intro b
    cases b with
    | nil => exact Or.inr (Or.inl rfl)
    | cons y ys => exact Or.inl rfl
  | cons x xs ih =>
    intro b
    cases b with
    | nil => exact Or.inr (Or.inr rfl)
    | cons y ys =>
      rcases Nat.lt_trichotomy x y with h | h | h
      · refine Or.inl ?_
        show (if x < y then true else if x = y then bytesLt xs ys else false) = true
        rw [if_pos h]
      · subst h
        rcases ih ys with h2 | h2 | h2
        · refine Or.inl ?_
          show (if x < x then true else if x = x then bytesLt xs ys else false) = true
          rw [if_neg (lt_irrefl x), if_pos rfl]
          exact h2
        · exact Or.inr (Or.inl (by rw [h2]))
        · refine Or.inr (Or.inr ?_)
          show (if x < x then true else if x = x then bytesLt ys xs else false) = true
          rw [if_neg (lt_irrefl x), if_pos rfl]
          exact h2
      · refine Or.inr (Or.inr ?_)
        show (if y < x then true else if y = x then bytesLt ys xs else false) = true
        rw [if_pos h]

theorem bytesLt_append : ∀ (a b s t : Bytes), a.length = b.length →
    (bytesLt (a ++ s) (b ++ t) = true ↔
      (bytesLt a b = true ∨ (a = b ∧ bytesLt s t = true))) := by
  intro a
  induction a with
  | nil =>
    intro b s t hlen
    cases b with
    | nil =>
      simp only [List.nil_append]
      constructor
      · intro h
        exact Or.inr ⟨trivial, h⟩
      · intro h
        rcases h with h | ⟨_, h⟩
        · rw [bytesLt_nil_right] at h
          cases h
        · exact h
    | cons y ys => cases hlen
  | cons x xs ih =>
    intro b s t hlen
    cases b with
    | nil => cases hlen
    | cons y ys =>
      have hlen' : xs.length = ys.length := by
        simpa using hlen
      constructor
      · intro h
        change (if x < y then true
          else if x = y then bytesLt (xs ++ s) (ys ++ t) else false) = true at h
        by_cases h1 : x < y
        · refine Or.inl ?_
          show (if x < y then true else if x = y then bytesLt xs ys else false) = true
          rw [if_pos h1]
        · rw [if_neg h1] at h
          by_cases h2 : x = y
          · rw [if_pos h2] at h
            rcases (ih ys s t hlen').1 h with h3 | ⟨h3, h4⟩
            · refine Or.inl ?_
              show (if x < y then true
                else if x = y then bytesLt xs ys else false) = true
              rw [if_neg h1, if_pos h2]
              exact h3
            · subst h2
              exact Or.inr ⟨by rw [h3], h4⟩
          · rw [if_neg h2] at h
            cases h
      · intro h
        show (if x < y then true
          else if x = y then bytesLt (xs ++ s) (ys ++ t) else false) = true
        rcases h with h | ⟨he, hst⟩
        · change (if x < y then true
            else if x = y then bytesLt xs ys else false) = true at h
          by_cases h1 : x < y
          · rw [if_pos h1]
          · rw [if_neg h1] at h ⊢
            by_cases h2 : x = y
            · rw [if_pos h2] at h ⊢
              exact (ih ys s t hlen').2 (Or.inl h)
            · rw [if_neg h2] at h
              cases h
        · obtain ⟨hx, hxs⟩ : x = y ∧ xs = ys := by
            injection he with e1 e2
            exact ⟨e1, e2⟩
          by_cases h1 : x < y
          · rw [if_pos h1]
          · rw [if_neg h1, if_pos hx]
            exact (ih ys s t hlen').2 (Or.inr ⟨hxs, hst⟩)

theorem beBytes_length : ∀ (w n : Nat), (beBytes w n).length = w := by
  intro w
  induction w with
  | zero =>
    intro n
    rfl
  | succ w ih =>
    intro n
    simp only [beBytes, List.length_cons, ih]

theorem beBytes_lt : ∀ (w n m : Nat), n < 256 ^ w → m < 256 ^ w →
    (bytesLt (beBytes w n) (beBytes w m) = true ↔ n < m) := by
  intro w
  induction w with
  | zero =>
    intro n m hn hm
    have hn0 : n = 0 := Nat.lt_one_iff.1 (by simpa using hn)
    have hm0 : m = 0 := Nat.lt_one_iff.1 (by simpa using hm)
    subst hn0
    subst hm0
    simp [beBytes, bytesLt]
  | succ w ih =>
    intro n m hn hm
    have hpow : 0 < 256 ^ w := Nat.pos_pow_of_pos w (by norm_num)
    have hps : 256 ^ (w + 1) = 256 ^ w * 256 := pow_succ 256 w
    have hdn : n / 256 ^ w < 256 := by
      rw [Nat.div_lt_iff_lt_mul hpow]
      rw [hps] at hn
      omega
    have hdm : m / 256 ^ w < 256 := by
      rw [Nat.div_lt_iff_lt_mul hpow]
      rw [hps] at hm
      omega
    simp only [beBytes, bytesLt]
    rw [Nat.mod_eq_of_lt hdn, Nat.mod_eq_of_lt hdm]
    by_cases h1 : n / 256 ^ w < m / 256 ^ w
    · rw [if_pos h1]
      exact ⟨fun _ => Nat.lt_of_div_lt_div h1, fun _ => rfl⟩
    · by_cases h1e : n / 256 ^ w = m / 256 ^ w
      · rw [if_neg h1, if_pos h1e]
        rw [ih (n % 256 ^ w) (m % 256 ^ w) (Nat.mod_lt n hpow) (Nat.mod_lt m hpow)]
        constructor
        · intro h
          have hsum : 256 ^ w * (n / 256 ^ w) + n % 256 ^ w <
              256 ^ w * (m / 256 ^ w) + m % 256 ^ w := by
            rw [← h1e]
            exact Nat.add_lt_add_left h _
          rwa [Nat.div_add_mod, Nat.div_add_mod] at hsum
        · intro h
          by_contra hc
          push_neg at hc
          have hsum : 256 ^ w * (m / 256 ^ w) + m % 256 ^ w ≤
              256 ^ w * (n / 256 ^ w) + n % 256 ^ w := by
            rw [h1e]
            exact Nat.add_le_add_left hc _
          rw [Nat.div_add_mod, Nat.div_add_mod] at hsum
          omega
      · rw [if_neg h1, if_neg h1e]
        have hmn : m / 256 ^ w < n / 256 ^ w := by omega
        have hlt : m < n := Nat.lt_of_div_lt_div hmn
        constructor
        · intro h
          cases h
        · intro h
          omega

theorem beBytes_inj (w n m : Nat) (hn : n < 256 ^ w) (hm : m < 256 ^ w)
    (h : beBytes w n = beBytes w m) : n = m := by
  rcases Nat.lt_trichotomy n m with hc | hc | hc
  · have hx := (beBytes_lt w n m hn hm).2 hc
    rw [h, bytesLt_irrefl] at hx
    cases hx
  · exact hc
  · have hx := (beBytes_lt w m n hm hn).2 hc
    rw [h, bytesLt_irrefl] at hx
    cases hx

/-! ## The transposed key order mirrors txNum order on each domain key -/

theorem bytesLt_same_prefix (a s t : Bytes) :
    bytesLt (a ++ s) (a ++ t) = bytesLt s t := by
  cases h : bytesLt s t
  · cases hc : bytesLt (a ++ s) (a ++ t)
    · rfl
    · rcases (bytesLt_append a a s t rfl).1 hc with h1 | ⟨_, h1⟩
      · rw [bytesLt_irrefl] at h1
        cases h1
      · rw [h] at h1
        cases h1
  · exact (bytesLt_append a a s t rfl).2 (Or.inr ⟨rfl, h⟩)

theorem encodeS_inj (e f : SRec) (hL : e.key.length = f.key.length)
    (he : e.tx < 256 ^ 8) (hf : f.tx < 256 ^ 8)
    (h : (encodeS e).1 = (encodeS f).1) : e.key = f.key ∧ e.tx = f.tx := by
  have h' : e.key ++ beBytes 8 e.tx = f.key ++ beBytes 8 f.tx := h
  have h1 : e.key = f.key := by
    have hq := congrArg (List.take e.key.length) h'
    rw [List.take_left] at hq
    rw [hL, List.take_left] at hq
    exact hq
  have h2 : beBytes 8 e.tx = beBytes 8 f.tx := by
    have hq := congrArg (List.drop e.key.length) h'
    rw [List.drop_left] at hq
    rw [hL, List.drop_left] at hq
    exact hq
  exact ⟨h1, beBytes_inj 8 e.tx f.tx he hf h2⟩

theorem sLe_total (e f : SRec) : sLe e f ∨ sLe f e := by
  by_cases h : bytesLt (encodeS f).1 (encodeS e).1 = true
  · exact Or.inr (bytesLt_asymm _ _ h)
  · exact Or.inl (by simpa using h)

theorem sLe_trans (e f g : SRec) (h1 : sLe e f) (h2 : sLe f g) : sLe e g := by
  cases hc : bytesLt (encodeS g).1 (encodeS e).1
  · exact hc
  · rcases bytesLt_trich (encodeS e).1 (encodeS f).1 with h | h | h
    · have hgf := bytesLt_trans _ _ _ hc h
      rw [h2] at hgf
      cases hgf
    · rw [h] at hc
      rw [h2] at hc
      cases hc
    · rw [h1] at h
      cases h

/-- A key-sorted run of records with pairwise-distinct `(key, txNum)`
pairs and 64-bit transaction numbers lists the records of each fixed
domain key in strictly increasing `txNum` order — with no assumption on
the key lengths (two records of one key encode to strings with the same
prefix, so their order is decided by the 8 appended txNum bytes alone). -/
theorem sorted_keyTxLt (es : List SRec)
    (htx : ∀ e ∈ es, e.tx < 256 ^ 8)
    (hnd : (es.map fun e => (e.key, e.tx)).Nodup) :
    List.Pairwise keyTxLt (sSort es) := by
  haveI : IsTotal SRec sLe := ⟨sLe_total⟩
  haveI : IsTrans SRec sLe := ⟨sLe_trans⟩
  have hsorted : List.Pairwise sLe (sSort es) := List.sorted_insertionSort sLe es
  have hperm : List.Perm (sSort es) es := List.perm_insertionSort sLe es
  have hnd' : ((sSort es).map fun e => (e.key, e.tx)).Nodup :=
    ((hperm.map fun e => (e.key, e.tx)).nodup_iff).2 hnd
  have hne : List.Pairwise (fun e f : SRec => (e.key, e.tx) ≠ (f.key, f.tx))
      (sSort es) := List.pairwise_map.1 hnd'
  refine (hsorted.and hne).imp_of_mem ?_
  intro e f he hf hr
  obtain ⟨h1, h2⟩ := hr
  intro hkey
  have henc : bytesLt (encodeS f).1 (encodeS e).1 =
      bytesLt (beBytes 8 f.tx) (beBytes 8 e.tx) := by
    show bytesLt (f.key ++ beBytes 8 f.tx) (e.key ++ beBytes 8 e.tx) =
      bytesLt (beBytes 8 f.tx) (beBytes 8 e.tx)
    rw [hkey]
    exact bytesLt_same_prefix f.key (beBytes 8 f.tx) (beBytes 8 e.tx)
  have hle : ¬f.tx < e.tx := by
    intro hc
    have hx := (beBytes_lt 8 f.tx e.tx (htx f (hperm.subset hf))
      (htx e (hperm.subset he))).2 hc
    rw [← henc, h1] at hx
    cases hx
  have hne' : e.tx ≠ f.tx := by
    intro hc
    exact h2 (by rw [hkey, hc])
  omega

/-! ## The ETL collection is the raw image of the structured records -/

theorem transposeR_eq (r : RRec) :
    transposeRRow (rRowRaw r) = encodeS ⟨r.key, r.tx, some r.val⟩ := by
  show ((beBytes 8 r.tx ++ r.key).drop 8 ++ (beBytes 8 r.tx ++ r.key).take 8,
      some r.val) = (r.key ++ beBytes 8 r.tx, some r.val)
  have h1 : (beBytes 8 r.tx ++ r.key).drop 8 = r.key := by
    have hq := List.drop_left (beBytes 8 r.tx) r.key
    rwa [beBytes_length] at hq
  have h2 : (beBytes 8 r.tx ++ r.key).take 8 = beBytes 8 r.tx := by
    have hq := List.take_left (beBytes 8 r.tx) r.key
    rwa [beBytes_length] at hq
  rw [h1, h2]

theorem transposeD_eq (d : DRec) :
    transposeDRow (dRowRaw d) = encodeS ⟨d.key, d.tx, none⟩ := rfl

theorem collected_eq (rT : List RRec) (dT : List DRec) :
    collected rT dT = (entriesAll rT dT).map encodeS := by
  simp only [collected, entriesAll, List.map_append]
  congr 1
  · induction rT with
    | nil => rfl
    | cons r rs ih =>
      simp only [List.map_cons]
      rw [transposeR_eq r, ih]
  · induction dT with
    | nil => rfl
    | cons d ds ih =>
      simp only [List.map_cons]
      rw [transposeD_eq d, ih]

/-! ## Sorting commutes with the raw encoding -/

theorem orderedInsert_encodeS (e : SRec) : ∀ es : List SRec,
    List.orderedInsert etlLe (encodeS e) (es.map encodeS) =
      (List.orderedInsert sLe e es).map encodeS := by
  intro es
  induction es with
  | nil => rfl
  | cons f fs ih =>
    simp only [List.map_cons, List.orderedInsert]
    by_cases h : sLe e f
    · rw [if_pos (show etlLe (encodeS e) (encodeS f) from h), if_pos h]
      simp only [List.map_cons]
    · rw [if_neg (show ¬etlLe (encodeS e) (encodeS f) from h), if_neg h]
      simp only [List.map_cons, ih]

theorem etlSort_map (es : List SRec) :
    etlSort (es.map encodeS) = (sSort es).map encodeS := by
  simp only [etlSort, sSort]
  induction es with
  | nil => rfl
  | cons e rest ih =>
    simp only [List.map_cons, List.insertionSort, ih, orderedInsert_encodeS]

/-! ## The raw Load fold is the structured fold on encoded rows -/

theorem encodeS_groupKey (e : SRec) :
    (encodeS e).1.take ((encodeS e).1.length - 8) = e.key := by
  show (e.key ++ beBytes 8 e.tx).take ((e.key ++ beBytes 8 e.tx).length - 8) = e.key
  rw [List.length_append, beBytes_length]
  have h8 : e.key.length + 8 - 8 = e.key.length := by omega
  rw [h8]
  exact List.take_left e.key (beBytes 8 e.tx)

theorem rawLoadGo_map : ∀ (es : List SRec) (lk : Bytes) (lv : Option Bytes),
    rawLoadGo (es.map encodeS) (some lk) lv = sLoadGo es lk lv := by
  intro es
  induction es with
  | nil =>
    intro lk lv
    rfl
  | cons e rest ih =>
    intro lk lv
    have hg : (e.key ++ beBytes 8 e.tx).take ((e.key ++ beBytes 8 e.tx).length - 8)
        = e.key := encodeS_groupKey e
    show rawLoadGo ((e.key ++ beBytes 8 e.tx, e.val) :: List.map encodeS rest)
        (some lk) lv = sLoadGo (e :: rest) lk lv
    simp only [rawLoadGo, sLoadGo]
    rw [hg]
    by_cases h : e.key = lk
    · rw [if_pos (show some lk = some e.key by rw [h]), if_pos h]
      exact ih lk e.val
    · have hne : ¬(some lk = some e.key) := by
        intro hc
        injection hc with hc'
        exact h hc'.symm
      rw [if_neg hne, if_neg h]
      show [finOp lk lv] ++ rawLoadGo (List.map encodeS rest) (some e.key) e.val =
        finOp lk lv :: sLoadGo rest e.key e.val
      rw [ih e.key e.val]
      rfl

theorem rawLoad_map : ∀ es : List SRec, rawLoad (es.map encodeS) = sLoad es := by
  intro es
  cases es with
  | nil => rfl
  | cons e rest =>
    have hg : (e.key ++ beBytes 8 e.tx).take ((e.key ++ beBytes 8 e.tx).length - 8)
        = e.key := encodeS_groupKey e
    show rawLoadGo ((e.key ++ beBytes 8 e.tx, e.val) :: List.map encodeS rest)
        none none = sLoadGo rest e.key e.val
    simp only [rawLoadGo]
    rw [hg]
    rw [if_neg (show ¬((none : Option Bytes) = some e.key) by intro hc; cases hc)]
    show ([] : List Op) ++ rawLoadGo (List.map encodeS rest) (some e.key) e.val =
      sLoadGo rest e.key e.val
    rw [List.nil_append]
    exact rawLoadGo_map rest e.key e.val

/-! ## Characterisation of the latest-record fold -/

theorem foldl_latestUpd_skip (k : Bytes) : ∀ (es : List SRec)
    (acc : Option (Nat × Option Bytes)), (∀ e ∈ es, e.key ≠ k) →
    List.foldl (latestUpd k) acc es = acc := by
  intro es
  induction es with
  | nil =>
    intro acc h
    rfl
  | cons e rest ih =>
    intro acc h
    simp only [List.foldl_cons]
    rw [show latestUpd k acc e = acc from by
      simp only [latestUpd]
      rw [if_neg (h e (List.mem_cons_self e rest))]]
    exact ih acc fun f hf => h f (List.mem_cons_of_mem e hf)

theorem latestFor_eq_none (k : Bytes) (es : List SRec)
    (h : ∀ e ∈ es, e.key ≠ k) : latestFor k es = none :=
  foldl_latestUpd_skip k es none h

theorem foldl_latestUpd_none (k : Bytes) : ∀ (es : List SRec)
    (acc : Option (Nat × Option Bytes)),
    List.foldl (latestUpd k) acc es = none →
    acc = none ∧ ∀ e ∈ es, e.key ≠ k := by
  intro es
  induction es with
  | nil =>
    intro acc h
    exact ⟨h, fun e he => absurd he (List.not_mem_nil e)⟩
  | cons e rest ih =>
    intro acc h
    simp only [List.foldl_cons] at h
    rcases ih _ h with ⟨h1, h2⟩
    by_cases hk : e.key = k
    · exfalso
      cases hacc : acc with
      | none =>
        have hupd : latestUpd k acc e = some (e.tx, e.val) := by
          simp only [latestUpd, hacc]
          rw [if_pos hk]
        rw [hupd] at h1
        cases h1
      | some p =>
        obtain ⟨t1, v1⟩ := p
        have hupd : latestUpd k acc e =
            if t1 < e.tx then some (e.tx, e.val) else some (t1, v1) := by
          simp only [latestUpd, hacc]
          rw [if_pos hk]
        rw [hupd] at h1
        by_cases hlt : t1 < e.tx
        · rw [if_pos hlt] at h1
          cases h1
        · rw [if_neg hlt] at h1
          cases h1
    · have hupd : latestUpd k acc e = acc := by
        simp only [latestUpd]
        rw [if_neg hk]
      rw [hupd] at h1
      refine ⟨h1, ?_⟩
      intro f hf
      rcases List.mem_cons.1 hf with hf | hf
      · rw [hf]
        exact hk
      · exact h2 f hf

theorem foldl_latestUpd_spec (k : Bytes) : ∀ (es : List SRec)
    (acc : Option (Nat × Option Bytes)) (t : Nat) (v : Option Bytes),
    List.foldl (latestUpd k) acc es = some (t, v) →
    ((acc = some (t, v) ∨ (⟨k, t, v⟩ : SRec) ∈ es) ∧
     (∀ e ∈ es, e.key = k → e.tx ≤ t) ∧
     (∀ t0 v0, acc = some (t0, v0) → t0 ≤ t)) := by
  intro es
  induction es with
  | nil =>
    intro acc t v h
    rw [List.foldl_nil] at h
    refine ⟨Or.inl h, ?_, ?_⟩
    · intro e he
      cases he
    · intro t0 v0 h0
      rw [h0] at h
      simp only [Option.some.injEq, Prod.mk.injEq] at h
      exact le_of_eq h.1
  | cons e rest ih =>
    intro acc t v h
    simp only [List.foldl_cons] at h
    rcases ih (latestUpd k acc e) t v h with ⟨h1, h2, h3⟩
    by_cases hk : e.key = k
    · cases hacc : acc with
      | none =>
        have hupd : latestUpd k acc e = some (e.tx, e.val) := by
          simp only [latestUpd, hacc]
          rw [if_pos hk]
        rw [hupd] at h1 h3
        refine ⟨?_, ?_, ?_⟩
        · rcases h1 with h1 | h1
          · simp only [Option.some.injEq, Prod.mk.injEq] at h1
            have heq : (⟨k, t, v⟩ : SRec) = e := by
              rw [← hk, ← h1.1, ← h1.2]
            rw [heq]
            exact Or.inr (List.mem_cons_self e rest)
          · exact Or.inr (List.mem_cons_of_mem e h1)
        · intro f hf hfk
          rcases List.mem_cons.1 hf with hf | hf
          · rw [hf]
            exact h3 e.tx e.val rfl
          · exact h2 f hf hfk
        · intro t0 v0 h0
          cases h0
      | some p =>
        obtain ⟨t1, v1⟩ := p
        have hupd : latestUpd k acc e =
            if t1 < e.tx then some (e.tx, e.val) else some (t1, v1) := by
          simp only [latestUpd, hacc]
          rw [if_pos hk]
        by_cases hlt : t1 < e.tx
        · rw [if_pos hlt] at hupd
          rw [hupd] at h1 h3
          refine ⟨?_, ?_, ?_⟩
          · rcases h1 with h1 | h1
            · simp only [Option.some.injEq, Prod.mk.injEq] at h1
              have heq : (⟨k, t, v⟩ : SRec) = e := by
                rw [← hk, ← h1.1, ← h1.2]
              rw [heq]
              exact Or.inr (List.mem_cons_self e rest)
            · exact Or.inr (List.mem_cons_of_mem e h1)
          · intro f hf hfk
            rcases List.mem_cons.1 hf with hf | hf
            · rw [hf]
              exact h3 e.tx e.val rfl
            · exact h2 f hf hfk
          · intro t0 v0 h0
            simp only [Option.some.injEq, Prod.mk.injEq] at h0
            have het : e.tx ≤ t := h3 e.tx e.val rfl
            obtain ⟨h0a, h0b⟩ := h0
            omega
        · rw [if_neg hlt] at hupd
          rw [hupd] at h1 h3
          refine ⟨?_, ?_, ?_⟩
          · rcases h1 with h1 | h1
            · simp only [Option.some.injEq, Prod.mk.injEq] at h1
              exact Or.inl (by rw [h1.1, h1.2])
            · exact Or.inr (List.mem_cons_of_mem e h1)
          · intro f hf hfk
            rcases List.mem_cons.1 hf with hf | hf
            · have ht1 : t1 ≤ t := h3 t1 v1 rfl
              rw [hf]
              omega
            · exact h2 f hf hfk
          · intro t0 v0 h0
            simp only [Option.some.injEq, Prod.mk.injEq] at h0
            have ht1 : t1 ≤ t := h3 t1 v1 rfl
            obtain ⟨h0a, h0b⟩ := h0
            omega
    · have hupd : latestUpd k acc e = acc := by
        simp only [latestUpd]
        rw [if_neg hk]
      rw [hupd] at h1 h3
      refine ⟨?_, ?_, ?_⟩
      · rcases h1 with h1 | h1
        · exact Or.inl h1
        · exact Or.inr (List.mem_cons_of_mem e h1)
      · intro f hf hfk
        rcases List.mem_cons.1 hf with hf | hf
        · exact absurd (hf ▸ hfk) hk
        · exact h2 f hf hfk
      · exact h3

theorem latestFor_perm (k : Bytes) (es1 es2 : List SRec)
    (hperm : List.Perm es1 es2)
    (hnd : (es2.map fun e => (e.key, e.tx)).Nodup) :
    latestFor k es1 = latestFor k es2 := by
  cases h1 : latestFor k es1 with
  | none =>
    rcases foldl_latestUpd_none k es1 none h1 with ⟨_, hkeys⟩
    exact (latestFor_eq_none k es2 fun e he => hkeys e (hperm.mem_iff.2 he)).symm
  | some p =>
    obtain ⟨t, v⟩ := p
    rcases foldl_latestUpd_spec k es1 none t v h1 with ⟨hmem, hmax, _⟩
    rcases hmem with hmem | hmem
    · cases hmem
    · cases h2 : latestFor k es2 with
      | none =>
        rcases foldl_latestUpd_none k es2 none h2 with ⟨_, hkeys⟩
        exact absurd rfl (hkeys ⟨k, t, v⟩ (hperm.mem_iff.1 hmem))
      | some q =>
        obtain ⟨t2, v2⟩ := q
        rcases foldl_latestUpd_spec k es2 none t2 v2 h2 with ⟨hmem2, hmax2, _⟩
        rcases hmem2 with hmem2 | hmem2
        · cases hmem2
        · have hle1 : t ≤ t2 := hmax2 ⟨k, t, v⟩ (hperm.mem_iff.1 hmem) rfl
          have hle2 : t2 ≤ t := hmax ⟨k, t2, v2⟩ (hperm.mem_iff.2 hmem2) rfl
          have ht : t = t2 := Nat.le_antisymm hle1 hle2
          subst ht
          have hv : (⟨k, t, v⟩ : SRec) = ⟨k, t, v2⟩ :=
            List.inj_on_of_nodup_map hnd (hperm.mem_iff.1 hmem) hmem2 rfl
          rw [show v = v2 from congrArg SRec.val hv]

theorem mergeOpt_none_left : ∀ r : Option (Nat × Option Bytes),
    mergeOpt none r = r := by
  intro r
  cases r with
  | none => rfl
  | some q =>
    obtain ⟨t, v⟩ := q
    rfl

theorem mergeOpt_none_right : ∀ acc : Option (Nat × Option Bytes),
    mergeOpt acc none = acc := by
  intro acc
  cases acc with
  | none => rfl
  | some q =>
    obtain ⟨t, v⟩ := q
    rfl

/-- Folding `latestUpd` from any accumulator is the `max`-merge of the
accumulator with the fold from `none`: the running maximum decomposes. -/
theorem foldl_latestUpd_merge (k : Bytes) : ∀ (es : List SRec)
    (acc : Option (Nat × Option Bytes)),
    List.foldl (latestUpd k) acc es =
      mergeOpt acc (List.foldl (latestUpd k) none es) := by
  intro es
  induction es with
  | nil =>
    intro acc
    simp only [List.foldl_nil]
    rw [mergeOpt_none_right]
  | cons e rest ih =>
    intro acc
    simp only [List.foldl_cons]
    rw [ih (latestUpd k acc e), ih (latestUpd k none e)]
    generalize List.foldl (latestUpd k) none rest = r
    by_cases hk : e.key = k
    · cases hacc : acc with
      | none =>
        have h1 : latestUpd k none e = some (e.tx, e.val) := by
          simp only [latestUpd]
          rw [if_pos hk]
        rw [h1, mergeOpt_none_left]
      | some p =>
        obtain ⟨t0, v0⟩ := p
        have h1 : latestUpd k none e = some (e.tx, e.val) := by
          simp only [latestUpd]
          rw [if_pos hk]
        have h2 : latestUpd k (some (t0, v0)) e =
            if t0 < e.tx then some (e.tx, e.val) else some (t0, v0) := by
          simp only [latestUpd]
          rw [if_pos hk]
        rw [h1, h2]
        cases r with
        | none =>
          rw [mergeOpt_none_right, mergeOpt_none_right]
          simp only [mergeOpt]
        | some q =>
          obtain ⟨t1, v1⟩ := q
          by_cases hlt : t0 < e.tx
          · rw [if_pos hlt]
            by_cases h3 : e.tx < t1
            · have hR : mergeOpt (some (e.tx, e.val)) (some (t1, v1)) =
                  some (t1, v1) := by
                simp only [mergeOpt]
                rw [if_pos h3]
              rw [hR]
              have hR2 : mergeOpt (some (t0, v0)) (some (t1, v1)) =
                  some (t1, v1) := by
                simp only [mergeOpt]
                rw [if_pos (by omega : t0 < t1)]
              rw [hR2]
            · have hR : mergeOpt (some (e.tx, e.val)) (some (t1, v1)) =
                  some (e.tx, e.val) := by
                simp only [mergeOpt]
                rw [if_neg h3]
              rw [hR]
              have hR2 : mergeOpt (some (t0, v0)) (some (e.tx, e.val)) =
                  some (e.tx, e.val) := by
                simp only [mergeOpt]
                rw [if_pos hlt]
              rw [hR2]
          · rw [if_neg hlt]
            by_cases h3 : e.tx < t1
            · have hR : mergeOpt (some (e.tx, e.val)) (some (t1, v1)) =
                  some (t1, v1) := by
                simp only [mergeOpt]
                rw [if_pos h3]
              rw [hR]
            · have hR : mergeOpt (some (e.tx, e.val)) (some (t1, v1)) =
                  some (e.tx, e.val) := by
                simp only [mergeOpt]
                rw [if_neg h3]
              rw [hR]
              have hL : mergeOpt (some (t0, v0)) (some (t1, v1)) =
                  some (t0, v0) := by
                simp only [mergeOpt]
                rw [if_neg (by omega : ¬t0 < t1)]
              have hR2 : mergeOpt (some (t0, v0)) (some (e.tx, e.val)) =
                  some (t0, v0) := by
                simp only [mergeOpt]
                rw [if_neg hlt]
              rw [hL, hR2]
    · have h1 : latestUpd k none e = none := by
        simp only [latestUpd]
        rw [if_neg hk]
      have h2 : latestUpd k acc e = acc := by
        simp only [latestUpd]
        rw [if_neg hk]
      rw [h1, h2, mergeOpt_none_left]

/-! ## The Load fold realises the latest-record semantics -/

theorem sLoadGo_correct (k : Bytes) : ∀ (es : List SRec) (lk : Bytes)
    (ltx : Nat) (lv : Option Bytes) (st : Bytes → Option Bytes),
    List.Pairwise keyTxLt ((⟨lk, ltx, lv⟩ : SRec) :: es) →
    valOk lv → (∀ e ∈ es, valOk e.val) →
    applyOps st (sLoadGo es lk lv) k =
      latestEffect st k (latestFor k ((⟨lk, ltx, lv⟩ : SRec) :: es)) := by
  intro es
  induction es with
  | nil =>
    intro lk ltx lv st hpw hv hvs
    by_cases hk : lk = k
    · have hl : latestFor k [(⟨lk, ltx, lv⟩ : SRec)] = some (ltx, lv) := by
        show latestUpd k none ⟨lk, ltx, lv⟩ = some (ltx, lv)
        simp only [latestUpd]
        rw [if_pos hk]
      rw [hl]
      cases lv with
      | none =>
        show applyOp st (Op.del lk) k = none
        simp only [applyOp]
        rw [if_pos hk.symm]
      | some w =>
        have hw : w ≠ [] := hv
        show applyOp st (finOp lk (some w)) k = some w
        simp only [finOp]
        rw [if_neg hw]
        simp only [applyOp]
        rw [if_pos hk.symm]
    · have hl : latestFor k [(⟨lk, ltx, lv⟩ : SRec)] = none := by
        show latestUpd k none ⟨lk, ltx, lv⟩ = none
        simp only [latestUpd]
        rw [if_neg hk]
      rw [hl]
      show applyOp st (finOp lk lv) k = st k
      cases lv with
      | none =>
        simp only [finOp, applyOp]
        rw [if_neg (fun hc => hk hc.symm)]
      | some w =>
        have hw : w ≠ [] := hv
        simp only [finOp]
        rw [if_neg hw]
        simp only [applyOp]
        rw [if_neg (fun hc => hk hc.symm)]
  | cons e rest ih =>
    intro lk ltx lv st hpw hv hvs
    rcases List.pairwise_cons.1 hpw with ⟨hcur, hpw1⟩
    by_cases hk : e.key = lk
    · -- same group: the current value is superseded by `e.val`
      have hlt : ltx < e.tx := hcur e (List.mem_cons_self e rest) hk.symm
      have hpw' : List.Pairwise keyTxLt ((⟨lk, e.tx, e.val⟩ : SRec) :: rest) := by
        rcases List.pairwise_cons.1 hpw1 with ⟨he_rest, hpw2⟩
        refine List.pairwise_cons.2 ⟨?_, hpw2⟩
        intro x hx hkx
        exact he_rest x hx (hk.trans hkx)
      show applyOps st (sLoadGo (e :: rest) lk lv) k = _
      simp only [sLoadGo]
      rw [if_pos hk]
      rw [ih lk e.tx e.val st hpw' (hvs e (List.mem_cons_self e rest))
        (fun f hf => hvs f (List.mem_cons_of_mem e hf))]
      congr 1
      show List.foldl (latestUpd k) (latestUpd k none ⟨lk, e.tx, e.val⟩) rest =
        List.foldl (latestUpd k) (latestUpd k (latestUpd k none ⟨lk, ltx, lv⟩) e) rest
      congr 1
      by_cases hkk : lk = k
      · have hL : latestUpd k none (⟨lk, e.tx, e.val⟩ : SRec) = some (e.tx, e.val) := by
          simp only [latestUpd]
          rw [if_pos hkk]
        have h1 : latestUpd k none (⟨lk, ltx, lv⟩ : SRec) = some (ltx, lv) := by
          simp only [latestUpd]
          rw [if_pos hkk]
        have hR : latestUpd k (latestUpd k none ⟨lk, ltx, lv⟩) e =
            some (e.tx, e.val) := by
          rw [h1]
          simp only [latestUpd]
          rw [if_pos (hk.trans hkk), if_pos hlt]
        rw [hL, hR]
      · have hL : latestUpd k none (⟨lk, e.tx, e.val⟩ : SRec) = none := by
          simp only [latestUpd]
          rw [if_neg hkk]
        have h1 : latestUpd k none (⟨lk, ltx, lv⟩ : SRec) = none := by
          simp only [latestUpd]
          rw [if_neg hkk]
        have hR : latestUpd k (latestUpd k none ⟨lk, ltx, lv⟩) e = none := by
          rw [h1]
          simp only [latestUpd]
          rw [if_neg (fun hc => hkk (hk ▸ hc))]
        rw [hL, hR]
    · -- new group: `finOp lk lv` is emitted, then the fold restarts at `e`;
      -- a later run of key `lk` (possible when key lengths differ) carries
      -- a larger txNum and overrides the emitted op
      have hpw1' : List.Pairwise keyTxLt ((⟨e.key, e.tx, e.val⟩ : SRec) :: rest) :=
        hpw1
      show applyOps st (sLoadGo (e :: rest) lk lv) k = _
      simp only [sLoadGo]
      rw [if_neg hk]
      show applyOps (applyOp st (finOp lk lv)) (sLoadGo rest e.key e.val) k = _
      rw [ih e.key e.tx e.val (applyOp st (finOp lk lv)) hpw1'
        (hvs e (List.mem_cons_self e rest))
        (fun f hf => hvs f (List.mem_cons_of_mem e hf))]
      by_cases hkk : lk = k
      · have hacc : latestUpd k none (⟨lk, ltx, lv⟩ : SRec) = some (ltx, lv) := by
          simp only [latestUpd]
          rw [if_pos hkk]
        have hRfold : latestFor k ((⟨lk, ltx, lv⟩ : SRec) :: e :: rest) =
            mergeOpt (some (ltx, lv)) (latestFor k (e :: rest)) := by
          show List.foldl (latestUpd k) (latestUpd k none ⟨lk, ltx, lv⟩)
            (e :: rest) = mergeOpt (some (ltx, lv)) (latestFor k (e :: rest))
          rw [hacc]
          exact foldl_latestUpd_merge k (e :: rest) (some (ltx, lv))
        show latestEffect (applyOp st (finOp lk lv)) k (latestFor k (e :: rest)) =
          latestEffect st k (latestFor k ((⟨lk, ltx, lv⟩ : SRec) :: e :: rest))
        rw [hRfold]
        cases hres : latestFor k (e :: rest) with
        | none =>
          show latestEffect (applyOp st (finOp lk lv)) k none =
            latestEffect st k (some (ltx, lv))
          cases lv with
          | none =>
            simp only [latestEffect, finOp, applyOp]
            rw [if_pos hkk.symm]
          | some w =>
            have hw : w ≠ [] := hv
            simp only [latestEffect, finOp]
            rw [if_neg hw]
            simp only [applyOp]
            rw [if_pos hkk.symm]
        | some p =>
          obtain ⟨t2, v2⟩ := p
          rcases foldl_latestUpd_spec k (e :: rest) none t2 v2 hres with ⟨hm1, _, _⟩
          rcases hm1 with hm1 | hm1
          · cases hm1
          · have hlt2 : ltx < t2 := hcur ⟨k, t2, v2⟩ hm1 hkk
            have hmerge : mergeOpt (some (ltx, lv)) (some (t2, v2)) =
                some (t2, v2) := by
              simp only [mergeOpt]
              rw [if_pos hlt2]
            rw [hmerge]
            cases v2 <;> simp only [latestEffect]
      · have hacc : latestUpd k none (⟨lk, ltx, lv⟩ : SRec) = none := by
          simp only [latestUpd]
          rw [if_neg hkk]
        have hRHS : latestFor k ((⟨lk, ltx, lv⟩ : SRec) :: e :: rest) =
            latestFor k (e :: rest) := by
          show List.foldl (latestUpd k) (latestUpd k none ⟨lk, ltx, lv⟩)
            (e :: rest) = latestFor k (e :: rest)
          rw [hacc]
          rfl
        rw [hRHS]
        have hst : applyOp st (finOp lk lv) k = st k := by
          cases lv with
          | none =>
            simp only [finOp, applyOp]
            rw [if_neg (fun hc => hkk hc.symm)]
          | some w =>
            have hw : w ≠ [] := hv
            simp only [finOp]
            rw [if_neg hw]
            simp only [applyOp]
            rw [if_neg (fun hc => hkk hc.symm)]
        show latestEffect (applyOp st (finOp lk lv)) k (latestFor k (e :: rest)) =
          latestEffect st k (latestFor k (e :: rest))
        cases hres : latestFor k (e :: rest) with
        | none =>
          simp only [latestEffect]
          exact hst
        | some p =>
          obtain ⟨t2, v2⟩ := p
          cases v2 <;> simp only [latestEffect]

theorem sLoad_correct (es : List SRec) (st : Bytes → Option Bytes) (k : Bytes)
    (hpw : List.Pairwise keyTxLt es) (hvs : ∀ e ∈ es, valOk e.val) :
    applyOps st (sLoad es) k = latestEffect st k (latestFor k es) := by
  cases es with
  | nil => rfl
  | cons e rest =>
    have hpw' : List.Pairwise keyTxLt ((⟨e.key, e.tx, e.val⟩ : SRec) :: rest) := hpw
    exact sLoadGo_correct k rest e.key e.tx e.val st hpw'
      (hvs e (List.mem_cons_self e rest))
      (fun f hf => hvs f (List.mem_cons_of_mem e hf))

/-- C7: transpose correctness.  For every domain key appearing in a
scratch table triple — keys of different lengths mixed freely, as
`PlainState` mixes account and storage keys — provided the transaction
numbers fit in 64 bits, the `(key, txNum)` pairs are distinct and the
stored values are non-empty, the main-store content after the transpose
at any key equals: untouched if the key has no scratch record; deleted if
the latest-`txNum` record for it is a tombstone; else that record's
value. -/
theorem C7_theorem (st : Bytes → Option Bytes) (rT : List RRec) (dT : List DRec)
    (htx : ∀ e ∈ entriesAll rT dT, e.tx < 256 ^ 8)
    (hnd : ((entriesAll rT dT).map fun e => (e.key, e.tx)).Nodup)
    (hvs : ∀ e ∈ entriesAll rT dT, valOk e.val) :
    ∀ k, reconFinalState st rT dT k =
      latestEffect st k (latestFor k (entriesAll rT dT)) := by
  intro k
  have hperm : List.Perm (sSort (entriesAll rT dT)) (entriesAll rT dT) :=
    List.perm_insertionSort sLe (entriesAll rT dT)
  have hpw := sorted_keyTxLt (entriesAll rT dT) htx hnd
  have hvs' : ∀ e ∈ sSort (entriesAll rT dT), valOk e.val :=
    fun e he => hvs e (hperm.subset he)
  have h1 : reconFinalState st rT dT k =
      applyOps st (sLoad (sSort (entriesAll rT dT))) k := by
    show applyOps st (rawLoad (etlSort (collected rT dT))) k = _
    rw [collected_eq, etlSort_map, rawLoad_map]
  rw [h1, sLoad_correct _ st k hpw hvs']
  rw [latestFor_perm k _ _ hperm hnd]

/-- C7 (witness): mixed-length keys whose sorted transposed rows
interleave — the short key `[5]` has records on both sides of the longer
key `[5, 200]` — and the final state at `[5]` still follows its
latest-`txNum` record. -/
theorem C7_witness :
    reconFinalState demoSt demoRT demoDT [5] =
      latestEffect demoSt [5] (latestFor [5] (entriesAll demoRT demoDT)) :=
  C7_theorem demoSt demoRT demoDT (by decide) (by decide) (by decide) [5]

end Exec3
